import Mathlib

/-!
Shallow embedding of the lunchsync-sg transaction-normalization core
(`src/lunchsync_sg`): parsing utilities (`utils/parsing.py`), the data model
(`models.py`), the bank parsers (`parsers/*.py`), the account-name resolution
(`config.py`) and the normalizer pipeline (`normalizer.py`).

Python strings are modelled as `List Char`; the whitespace classes of
`str.split` / `str.strip` / regex `\s` are restricted to their ASCII members
(the bank exports handled by the program are ASCII).  Python `Decimal` values
are modelled as sign / coefficient / exponent triples covering the plain
fixed-point literal grammar that `parse_amount` can ever feed to the
`Decimal` constructor.
-/

namespace LunchSync

/-- Python strings, modelled as lists of characters. -/
abbrev Str := List Char

/-- Convert a Lean string literal into the model type. -/
def str (s : String) : Str := s.toList

/-- ASCII whitespace, the characters recognised by `str.split()`, `str.strip()`
and the regex class `\s` on ASCII input. -/
def isWs (c : Char) : Bool :=
  c = ' ' || c = '\t' || c = '\n' || c = '\r' || c = '\x0b' || c = '\x0c'

/-- Python `s.strip()`: drop leading and trailing whitespace. -/
def pyStrip (s : Str) : Str :=
  ((s.dropWhile isWs).reverse.dropWhile isWs).reverse

/-- Python `s.strip(c)` for a single strip character `c`. -/
def pyStripChar (c : Char) (s : Str) : Str :=
  ((s.dropWhile (· = c)).reverse.dropWhile (· = c)).reverse

/-- One pass of Python `s.split()`; `cur` is the word currently being
accumulated, in reverse. -/
def splitWsAux : Str → Str → List Str
  | cur, [] => if cur = [] then [] else [cur.reverse]
  | cur, c :: cs =>
      if isWs c then
        if cur = [] then splitWsAux [] cs
        else cur.reverse :: splitWsAux [] cs
      else splitWsAux (c :: cur) cs

/-- Python `s.split()`: the whitespace-separated words of `s`. -/
def splitWs (s : Str) : List Str := splitWsAux [] s

/-- Python `" ".join(words)`. -/
def joinSp : List Str → Str
  | [] => []
  | [w] => w
  | w :: v :: ws => w ++ ' ' :: joinSp (v :: ws)

/-- Python `" ".join(s.split())`: collapse all whitespace runs to single
spaces and trim the ends. -/
def collapseWs (s : Str) : Str := joinSp (splitWs s)

/-! ## Decimal model

`decimal.Decimal` values as produced and consumed by `parse_amount`
(`utils/parsing.py`).  A value is `(-1)^neg * coeff * 10^exp`.  The string
constructor is modelled on the plain fixed-point literal grammar
(optional sign, digits, optional fractional part); exponent, `NaN` and
`Infinity` literals never occur in the bank exports. -/

structure Dec where
  neg : Bool
  coeff : Nat
  exp : Int
  deriving DecidableEq, Repr

/-- Numeric value of the digit list (most significant first). -/
def natOfDigits (ds : Str) : Nat :=
  ds.foldl (fun n c => n * 10 + (c.toNat - 48)) 0

/-- `Decimal(s)` on a plain fixed-point literal: optional sign, an integer
part and an optional `.`-separated fractional part, at least one digit in
total; anything else raises `InvalidOperation` (modelled as `none`). -/
def decOfStr (s : Str) : Option Dec :=
  let sign : Bool := decide (s.head? = some '-')
  let rest := if s.head? = some '-' ∨ s.head? = some '+' then s.drop 1 else s
  let intPart := rest.takeWhile Char.isDigit
  let rest2 := rest.dropWhile Char.isDigit
  if rest2 = [] then
    if intPart = [] then none else some ⟨sign, natOfDigits intPart, 0⟩
  else if rest2.head? = some '.' ∧ (rest2.drop 1).all Char.isDigit ∧
      (intPart ≠ [] ∨ rest2.drop 1 ≠ []) then
    some ⟨sign, natOfDigits (intPart ++ rest2.drop 1),
      -(((rest2.drop 1).length : Int))⟩
  else none

/-- Python `Decimal.__neg__`: `-Decimal('0')` is `Decimal('0')` (the sign of
a zero result is dropped), otherwise the sign is flipped. -/
def decNeg (d : Dec) : Dec :=
  if d.coeff = 0 then { d with neg := false } else { d with neg := !d.neg }

/-- Python truthiness of a Decimal: `bool(d)` is false exactly on zero. -/
def decTruthy (d : Dec) : Bool := d.coeff ≠ 0

/-- Truthiness of an `Optional[Decimal]`: `None` and zero are falsy. -/
def optTruthy : Option Dec → Bool
  | none => false
  | some d => decTruthy d

/-- Decimal digits of `n`, most significant first (`"0"` for zero). -/
def decDigits (n : Nat) : Str := Nat.toDigits 10 n

/-- Render a (possibly signed) exponent as Python does in `Decimal.__str__`
(always with an explicit sign). -/
def expStr (e : Int) : Str :=
  if e < 0 then '-' :: decDigits (-e).toNat else '+' :: decDigits e.toNat

/-- Python `str(Decimal)`: the to-scientific-string algorithm of the decimal
specification. -/
def decStr (d : Dec) : Str :=
  let ds := decDigits d.coeff
  let leftdigits : Int := d.exp + ds.length
  let body :=
    if d.exp ≤ 0 ∧ leftdigits > -6 then
      if d.exp = 0 then ds
      else if leftdigits > 0 then
        ds.take leftdigits.toNat ++ '.' :: ds.drop leftdigits.toNat
      else '0' :: '.' :: (List.replicate (-leftdigits).toNat '0' ++ ds)
    else
      let dotpart := if ds.length = 1 then [] else '.' :: ds.drop 1
      ds.take 1 ++ dotpart ++ 'E' :: expStr (leftdigits - 1)
  if d.neg then '-' :: body else body

/-! ## parse_amount (`utils/parsing.py` lines 47-93) -/

/-- The character class removed by `re.sub(r"[SGD$\s]", "", ...)`. -/
def isCurrencyChar (c : Char) : Bool :=
  c = 'S' || c = 'G' || c = 'D' || c = '$' || isWs c

/-- The tail of `parse_amount` after quote/whitespace trimming and the
parenthesis test (`is_negative` so far in `isNeg`): strip currency
characters and thousands-separator commas, treat a remaining leading minus
as negative, and parse the rest as a Decimal. -/
def parseAmountTail (isNeg : Bool) (s2 : Str) : Option Dec :=
  let s3 := s2.filter (fun c => !isCurrencyChar c)
  let s4 := s3.filter (fun c => !(c = ','))
  let minus : Bool × Str :=
    if s4.head? = some '-' then (true, s4.drop 1) else (isNeg, s4)
  match decOfStr minus.2 with
  | some v => some (if minus.1 then decNeg v else v)
  | none => none

/-- `parse_amount(amount_str)`: trim whitespace and quotes, treat a
parenthesized value as negative (stripping the parentheses), then continue
with `parseAmountTail`. -/
def parse_amount (s : Str) : Option Dec :=
  if s = [] ∨ pyStrip s = [] then none
  else
    let s1 := pyStrip (pyStripChar '"' (pyStrip s))
    if s1 = [] then none
    else if s1.head? = some '(' ∧ s1.getLast? = some ')' then
      parseAmountTail true ((s1.drop 1).dropLast)
    else parseAmountTail false s1

/-! ## clean_description (`utils/parsing.py` lines 96-128)

Each `re.sub(pattern, "", desc)` call is modelled by a left-to-right scan
(`subst`): at each position the pattern is tried; on a match the matched
characters are removed and scanning resumes after them.  Every pattern used
by `clean_description` is deterministic on its character classes, so each is
implemented by a direct matcher returning the remainder after the match. -/

/-- One-pass global substitution by the empty string: scan left to right,
drop each non-overlapping match.  `m s` returns the remainder of `s` after a
match starting at its head, or `none`.  Fuel-driven; `subst` supplies enough
fuel for matchers that always consume at least one character. -/
def substAux (m : Str → Option Str) : Nat → Str → Str
  | 0, s => s
  | _ + 1, [] => []
  | fuel + 1, c :: cs =>
      match m (c :: cs) with
      | some rest => substAux m fuel rest
      | none => c :: substAux m fuel cs

/-- `re.sub(pattern, "", s)` for the matcher `m`. -/
def subst (m : Str → Option Str) (s : Str) : Str := substAux m s.length s

/-- Require exactly `n` characters satisfying `p`, returning the rest. -/
def takeCount (p : Char → Bool) : Nat → Str → Option Str
  | 0, s => some s
  | _ + 1, [] => none
  | n + 1, c :: cs => if p c then takeCount p n cs else none

/-- The class `[•X]` of masked-digit characters. -/
def isMaskChar (c : Char) : Bool := c = '•' || c = 'X'

/-- The class `[-\s]`. -/
def isDashWs (c : Char) : Bool := c = '-' || isWs c

/-- Matcher for `[•X]{4}[-\s]*[•X]{4}[-\s]*[•X]{4}[-\s]*\d{4}`.  The three
character classes are pairwise disjoint, so greedy matching needs no
backtracking. -/
def maskMatch (s : Str) : Option Str :=
  (takeCount isMaskChar 4 s).bind fun s1 =>
  (takeCount isMaskChar 4 (s1.dropWhile isDashWs)).bind fun s2 =>
  (takeCount isMaskChar 4 (s2.dropWhile isDashWs)).bind fun s3 =>
  takeCount Char.isDigit 4 (s3.dropWhile isDashWs)

/-- Matcher for the literal pattern `XXXX-XXXX-XXXX-\d{4}`. -/
def xMaskMatch (s : Str) : Option Str :=
  if (str "XXXX-XXXX-XXXX-").isPrefixOf s then
    takeCount Char.isDigit 4 (s.drop 15)
  else none

/-- Matcher for `Ref No:\s*\d+` (greedy whitespace run, then at least one
digit). -/
def refNoMatch (s : Str) : Option Str :=
  if (str "Ref No:").isPrefixOf s then
    let rest := (s.drop 7).dropWhile isWs
    match rest with
    | c :: _ => if c.isDigit then some (rest.dropWhile Char.isDigit) else none
    | [] => none
  else none

/-- The country/currency code whitelist of the trailing-token pattern, in the
alternation order of the source regex. -/
def trailCodes : List Str :=
  [str "SG", str "SGP", str "MY", str "GB", str "US", str "AU", str "IN",
   str "GBR", str "MYR", str "USD", str "AUD"]

/-- Matcher for `\s+(SG|SGP|MY|GB|US|AU|IN|GBR|MYR|USD|AUD)\s*$`: a
whitespace run, one whitelisted code, then only whitespace up to the end of
the string.  A match always extends to the end of the string. -/
def trailMatch (s : Str) : Option Str :=
  match s with
  | c :: _ =>
      if isWs c then
        let s1 := s.dropWhile isWs
        if trailCodes.any (fun cod =>
            cod.isPrefixOf s1 && (s1.drop cod.length).all isWs) then
          some []
        else none
      else none
  | [] => none

/-- `re.sub(r"[•X]{4}[-\s]*[•X]{4}[-\s]*[•X]{4}[-\s]*\d{4}", "", s)`. -/
def removeMask1 (s : Str) : Str := subst maskMatch s

/-- `re.sub(r"XXXX-XXXX-XXXX-\d{4}", "", s)`. -/
def removeMask2 (s : Str) : Str := subst xMaskMatch s

/-- `re.sub(r"Ref No:\s*\d+", "", s)`. -/
def removeRefNo (s : Str) : Str := subst refNoMatch s

/-- `re.sub(r"\s+(SG|SGP|MY|GB|US|AU|IN|GBR|MYR|USD|AUD)\s*$", "", s)`. -/
def removeTrailingCode (s : Str) : Str := subst trailMatch s

/-- `clean_description(desc)`: collapse whitespace, strip card-number masks,
reference numbers and a trailing location/country code, re-collapse and
trim. -/
def clean_description (desc : Str) : Str :=
  let d1 := collapseWs desc
  let d2 := removeMask1 d1
  let d3 := removeMask2 d2
  let d4 := removeRefNo d3
  let d5 := removeTrailingCode d4
  pyStrip (collapseWs d5)

/-! ## Dates and parse_date (`utils/parsing.py` lines 9-44)

`datetime.strptime` with the five formats tried by `parse_date`, including
the numeric-field alternations of CPython's `_strptime` regexes (`%d` is one
or two digits in 1..31, `%m` one or two digits in 1..12, `%Y` four digits,
month names case-insensitive, whitespace in the format matches a whitespace
run) and the calendar validation done by the `datetime` constructor. -/

structure Date where
  year : Nat
  month : Nat
  day : Nat
  deriving DecidableEq, Repr

def isLeap (y : Nat) : Bool := y % 4 = 0 && (y % 100 ≠ 0 || y % 400 = 0)

def daysInMonth (y m : Nat) : Nat :=
  if m = 2 then (if isLeap y then 29 else 28)
  else if m = 4 || m = 6 || m = 9 || m = 11 then 30
  else 31

/-- The `datetime.date` constructor: validates month, day and year range. -/
def mkDate (y m d : Nat) : Option Date :=
  if 1 ≤ m ∧ m ≤ 12 ∧ 1 ≤ d ∧ d ≤ daysInMonth y m ∧ 1 ≤ y ∧ y ≤ 9999 then
    some ⟨y, m, d⟩
  else none

def digitVal (c : Char) : Nat := c.toNat - 48

/-- A one-or-two-digit numeric field: a two-digit match is preferred when its
value passes `ok2`, otherwise a single digit passing `ok1`. -/
def matchNum2 (ok2 ok1 : Nat → Bool) : Str → Option (Nat × Str)
  | c1 :: c2 :: rest =>
      if c1.isDigit && c2.isDigit && ok2 (10 * digitVal c1 + digitVal c2) then
        some (10 * digitVal c1 + digitVal c2, rest)
      else if c1.isDigit && ok1 (digitVal c1) then some (digitVal c1, c2 :: rest)
      else none
  | [c1] =>
      if c1.isDigit && ok1 (digitVal c1) then some (digitVal c1, []) else none
  | [] => none

def dayField (s : Str) : Option (Nat × Str) :=
  matchNum2 (fun v => decide (1 ≤ v ∧ v ≤ 31)) (fun v => decide (1 ≤ v)) s

def monthField (s : Str) : Option (Nat × Str) :=
  matchNum2 (fun v => decide (1 ≤ v ∧ v ≤ 12)) (fun v => decide (1 ≤ v)) s

def yearField : Str → Option (Nat × Str)
  | c1 :: c2 :: c3 :: c4 :: rest =>
      if c1.isDigit && c2.isDigit && c3.isDigit && c4.isDigit then
        some (natOfDigits [c1, c2, c3, c4], rest)
      else none
  | _ => none

def pyLower (s : Str) : Str := s.map Char.toLower

def pyUpper (s : Str) : Str := s.map Char.toUpper

def monthAbbrs : List Str :=
  [str "jan", str "feb", str "mar", str "apr", str "may", str "jun",
   str "jul", str "aug", str "sep", str "oct", str "nov", str "dec"]

def monthNames : List Str :=
  [str "january", str "february", str "march", str "april", str "may",
   str "june", str "july", str "august", str "september", str "october",
   str "november", str "december"]

/-- Match a month name (case-insensitively) from the list, returning the
1-based month number and the rest of the input. -/
def matchNameIdx : Nat → List Str → Str → Option (Nat × Str)
  | _, [], _ => none
  | i, n :: ns, s =>
      if n.isPrefixOf (pyLower s) then some (i, s.drop n.length)
      else matchNameIdx (i + 1) ns s

/-- A whitespace run, as `\s+` in the compiled strptime pattern. -/
def matchWsRun : Str → Option Str
  | [] => none
  | c :: cs => if isWs c then some ((c :: cs).dropWhile isWs) else none

def matchChar (c : Char) : Str → Option Str
  | d :: rest => if d = c then some rest else none
  | [] => none

/-- `%d<sep>%m<sep>%Y`. -/
def fmtDMYsep (sep : Char) (s : Str) : Option Date :=
  (dayField s).bind fun p1 =>
  (matchChar sep p1.2).bind fun s2 =>
  (monthField s2).bind fun p2 =>
  (matchChar sep p2.2).bind fun s4 =>
  (yearField s4).bind fun p3 =>
  if p3.2 = [] then mkDate p3.1 p2.1 p1.1 else none

/-- `%d %b %Y` or `%d %B %Y`, with the month-name list as a parameter. -/
def fmtDMonY (names : List Str) (s : Str) : Option Date :=
  (dayField s).bind fun p1 =>
  (matchWsRun p1.2).bind fun s2 =>
  (matchNameIdx 1 names s2).bind fun p2 =>
  (matchWsRun p2.2).bind fun s4 =>
  (yearField s4).bind fun p3 =>
  if p3.2 = [] then mkDate p3.1 p2.1 p1.1 else none

/-- `%Y-%m-%d`. -/
def fmtYMD (s : Str) : Option Date :=
  (yearField s).bind fun p1 =>
  (matchChar '-' p1.2).bind fun s2 =>
  (monthField s2).bind fun p2 =>
  (matchChar '-' p2.2).bind fun s4 =>
  (dayField s4).bind fun p3 =>
  if p3.2 = [] then mkDate p1.1 p2.1 p3.1 else none

/-- `parse_date(date_str)`: trim whitespace and quotes, then try the five
formats in order. -/
def parse_date (s : Str) : Option Date :=
  let t := pyStrip (pyStripChar '"' (pyStrip s))
  if t = [] then none
  else
    (fmtDMYsep '/' t) <|> (fmtDMonY monthAbbrs t) <|> (fmtDMYsep '-' t) <|>
    (fmtYMD t) <|> (fmtDMonY monthNames t)

/-! ## CSV reading

Python's `csv.reader` with the default dialect (delimiter `,`, quote `"`,
doubled quotes as escapes, non-strict), as a character-level state machine.
Rows are separated by newlines outside quoted fields; a blank line yields an
empty row. -/

inductive CsvMode | start | unquoted | quoted | quoteEnd
  deriving DecidableEq, Repr

def csvAux : CsvMode → Str → List Str → Str → List (List Str)
  | mode, field, row, [] =>
      if mode = .start ∧ row = [] then [] else [row ++ [field]]
  | mode, field, row, c :: cs =>
      match mode with
      | .start =>
          if c = '"' then csvAux .quoted field row cs
          else if c = ',' then csvAux .start [] (row ++ [field]) cs
          else if c = '\n' then
            (if row = [] then [] else row ++ [field]) :: csvAux .start [] [] cs
          else csvAux .unquoted (field ++ [c]) row cs
      | .unquoted =>
          if c = ',' then csvAux .start [] (row ++ [field]) cs
          else if c = '\n' then (row ++ [field]) :: csvAux .start [] [] cs
          else csvAux .unquoted (field ++ [c]) row cs
      | .quoted =>
          if c = '"' then csvAux .quoteEnd field row cs
          else csvAux .quoted (field ++ [c]) row cs
      | .quoteEnd =>
          if c = '"' then csvAux .quoted (field ++ ['"']) row cs
          else if c = ',' then csvAux .start [] (row ++ [field]) cs
          else if c = '\n' then (row ++ [field]) :: csvAux .start [] [] cs
          else csvAux .unquoted (field ++ [c]) row cs

def csvParse (s : Str) : List (List Str) := csvAux .start [] [] s

/-- `next(csv.reader(StringIO(line)))`, with `StopIteration` (no rows at
all) modelled as `none`. -/
def csvRow (line : Str) : Option (List Str) := (csvParse line).head?

/-- Python `pat in s` on strings. -/
def hasSubstr (pat : Str) : Str → Bool
  | [] => pat.isPrefixOf []
  | s@(_ :: cs) => pat.isPrefixOf s || hasSubstr pat cs

/-- Python `s.split(sep)` for a one-character separator. -/
def splitOnChar (sep : Char) : Str → List Str
  | [] => [[]]
  | c :: cs =>
      if c = sep then [] :: splitOnChar sep cs
      else
        match splitOnChar sep cs with
        | [] => [[c]]
        | r :: rs => (c :: r) :: rs

/-! ## Transaction (`models.py` lines 9-49) -/

structure Transaction where
  date : Date
  description : Str
  amount : Dec
  account : Str
  originalCurrency : Str
  originalAmount : Option Dec
  category : Option Str
  reference : Option Str
  deriving DecidableEq, Repr

/-- Constructing a `Transaction` with the dataclass defaults; `__post_init__`
replaces a blank description with the placeholder. -/
def mkTransaction (date : Date) (description : Str) (amount : Dec)
    (account : Str) : Transaction :=
  { date := date
    description :=
      if pyStrip description = [] then str "(No description)" else description
    amount := amount
    account := account
    originalCurrency := str "SGD"
    originalAmount := none
    category := none
    reference := none }

/-! ## Bank parsers (`parsers/dbs.py`, `parsers/ocbc.py`, `parsers/uob.py`,
`parsers/hsbc.py`, `parsers/citi.py`)

Each parser's `parse` is embedded with the file's account-identifier
extraction abstracted: the resolved account name (the value of
`self.get_account_name(account_id)`, resolved once per file) is passed as a
parameter.  The `pending_skipped` counters are not modelled; a skipped
pending row simply produces no transaction, as in the source. -/

/-- The shared two-column amount rule
`if debit: amount = -debit elif credit: amount = credit else: skip`. -/
def twoColAmount (debit credit : Option Dec) : Option Dec :=
  if optTruthy debit then some (decNeg (debit.getD ⟨false, 0, 0⟩))
  else if optTruthy credit then some (credit.getD ⟨false, 0, 0⟩)
  else none

/-- The `in_transactions` flag over the lines of a file: a line matching the
column-header test flips the flag and is itself skipped; lines before the
header are dropped. -/
def stateDataLines (isHeader : Str → Bool) : Bool → List Str → List Str
  | _, [] => []
  | inTx, l :: ls =>
      if isHeader l then stateDataLines isHeader true ls
      else if inTx then l :: stateDataLines isHeader true ls
      else stateDataLines isHeader false ls

def dbsSavingsHeader (line : Str) : Bool :=
  hasSubstr (str "Transaction Date") line &&
  hasSubstr (str "Transaction Code") line

def dbsSavingsRow (accountName : Str) (line : Str) : Option Transaction :=
  match csvRow line with
  | none => none
  | some parts =>
      if parts.length < 8 then none
      else
        match parse_date (parts.getD 0 []) with
        | none => none
        | some dt =>
            let desc := clean_description (parts.getD 2 [])
            let debit :=
              if parts.length > 7 then parse_amount (parts.getD 7 []) else none
            let credit :=
              if parts.length > 8 then parse_amount (parts.getD 8 []) else none
            match twoColAmount debit credit with
            | some a => some (mkTransaction dt desc a accountName)
            | none => none

def DBSSavingsParser.parse (accountName : Str) (content : Str) :
    List Transaction :=
  (stateDataLines dbsSavingsHeader false
    (splitOnChar '\n' (pyStrip content))).filterMap (dbsSavingsRow accountName)

def dbsCreditHeader (line : Str) : Bool :=
  hasSubstr (str "Transaction Date") line &&
  hasSubstr (str "Transaction Posting Date") line

def dbsCreditRow (accountName : Str) (line : Str) : Option Transaction :=
  match csvRow line with
  | none => none
  | some parts =>
      if parts.length < 7 then none
      else if parts.length > 5 &&
          pyLower (pyStrip (parts.getD 5 [])) = str "pending" then none
      else
        match parse_date (parts.getD 0 []) with
        | none => none
        | some dt =>
            let desc := clean_description (parts.getD 2 [])
            let debit :=
              if parts.length > 6 then parse_amount (parts.getD 6 []) else none
            let credit :=
              if parts.length > 7 then parse_amount (parts.getD 7 []) else none
            match twoColAmount debit credit with
            | some a => some (mkTransaction dt desc a accountName)
            | none => none

def DBSCreditParser.parse (accountName : Str) (content : Str) :
    List Transaction :=
  (stateDataLines dbsCreditHeader false
    (splitOnChar '\n' (pyStrip content))).filterMap (dbsCreditRow accountName)

def ocbcCreditHeader (line : Str) : Bool :=
  hasSubstr (str "Transaction date,Description,Withdrawals") line

def ocbcCreditRow (accountName : Str) (line : Str) : Option Transaction :=
  let parts := splitOnChar ',' line
  if parts.length < 3 then none
  else
    match parse_date (parts.getD 0 []) with
    | none => none
    | some dt =>
        let desc := clean_description (parts.getD 1 [])
        let withdrawal :=
          if parts.length > 2 then parse_amount (parts.getD 2 []) else none
        let deposit :=
          if parts.length > 3 then parse_amount (parts.getD 3 []) else none
        match twoColAmount withdrawal deposit with
        | some a => some (mkTransaction dt desc a accountName)
        | none => none

def OCBCCreditParser.parse (accountName : Str) (content : Str) :
    List Transaction :=
  (stateDataLines ocbcCreditHeader false
    (splitOnChar '\n' (pyStrip content))).filterMap (ocbcCreditRow accountName)

/-- The suffix of `s` starting at the first occurrence of `pat`
(`content.find(pat)` followed by slicing), `none` when absent. -/
def dropBeforeSubstr (pat : Str) : Str → Option Str
  | [] => if pat.isPrefixOf [] then some [] else none
  | s@(_ :: cs) =>
      if pat.isPrefixOf s then some s else dropBeforeSubstr pat cs

def ocbc360Row (accountName : Str) (row : List Str) : Option Transaction :=
  if row.length < 5 then none
  else
    match parse_date (row.getD 0 []) with
    | none => none
    | some dt =>
        let desc := clean_description (row.getD 2 [])
        match twoColAmount (parse_amount (row.getD 3 []))
            (parse_amount (row.getD 4 [])) with
        | some a => some (mkTransaction dt desc a accountName)
        | none => none

def OCBC360Parser.parse (accountName : Str) (content : Str) :
    List Transaction :=
  match dropBeforeSubstr (str "Transaction date,Value date,Description")
      content with
  | none => []
  | some csvContent =>
      match csvParse csvContent with
      | [] => []
      | _ :: rows => rows.filterMap (ocbc360Row accountName)

def uobHeaderRow (row : List Str) : Bool :=
  decide (row.length ≥ 3) &&
  hasSubstr (str "Transaction Date") (row.getD 0 []) &&
  hasSubstr (str "Posting Date") (row.getD 1 [])

def uobDataRows : Bool → List (List Str) → List (List Str)
  | _, [] => []
  | inTx, r :: rs =>
      if r = [] then uobDataRows inTx rs
      else if uobHeaderRow r then uobDataRows true rs
      else if inTx then r :: uobDataRows true rs
      else uobDataRows false rs

def uobRow (accountName : Str) (row : List Str) : Option Transaction :=
  if row.length < 7 then none
  else if row.any (fun cell => hasSubstr (str "Previous Balance") cell) then
    none
  else if pyUpper (pyStrip (row.getD 1 [])) = str "PENDING" then none
  else
    match parse_date (pyStrip (row.getD 1 [])) with
    | none => none
    | some dt =>
        match parse_amount
            (if pyStrip (row.getD (row.length - 1) []) = [] then
              (if row.length ≥ 2 then
                pyStrip (row.getD (row.length - 2) []) else [])
             else pyStrip (row.getD (row.length - 1) [])) with
        | none => none
        | some a =>
            some (mkTransaction dt (clean_description (row.getD 2 []))
              (decNeg a) accountName)

def UOBCreditParser.parse (accountName : Str) (content : Str) :
    List Transaction :=
  (uobDataRows false (csvParse content)).filterMap (uobRow accountName)

def hsbcRow (row : List Str) : Option Transaction :=
  if row.length < 3 then none
  else
    match parse_date (row.getD 0 []) with
    | none => none
    | some dt =>
        let desc := clean_description (row.getD 1 [])
        match parse_amount (pyStrip (row.getD (row.length - 1) [])) with
        | none => none
        | some a => some (mkTransaction dt desc a (str "HSBC Revolution"))

def HSBCRevolutionParser.parse (content : Str) : List Transaction :=
  (csvParse content).filterMap hsbcRow

def aposChar : Char := Char.ofNat 39

def bomChar : Char := Char.ofNat 0xFEFF

/-- Match the Citi card pattern `'(\d{16})'` at the head of the string,
returning the 16 digits. -/
def cardAt (s : Str) : Option Str :=
  match s with
  | c :: rest =>
      if c = aposChar then
        let ds := rest.take 16
        if decide (ds.length = 16) && ds.all Char.isDigit &&
            decide ((rest.drop 16).head? = some aposChar) then some ds
        else none
      else none
  | [] => none

/-- `re.search` for the Citi card pattern: first matching position. -/
def searchCard : Str → Option Str
  | [] => none
  | s@(_ :: cs) =>
      match cardAt s with
      | some ds => some ds
      | none => searchCard cs

/-- The Citi parser resolves an account name per row; the
`get_account_name` lookup is abstracted as `resolve`. -/
def citiRow (resolve : Str → Str) (row : List Str) : Option Transaction :=
  if row.length < 5 then none
  else
    match parse_date (row.getD 0 []) with
    | none => none
    | some dt =>
        let desc := clean_description (row.getD 1 [])
        match parse_amount (row.getD 2 []) with
        | none => none
        | some a =>
            let cardNum := (searchCard (row.getD 4 [])).getD (str "Citi Card")
            some (mkTransaction dt desc a (resolve cardNum))

def CitiParser.parse (resolve : Str → Str) (content : Str) :
    List Transaction :=
  (csvParse (content.dropWhile (· = bomChar))).filterMap (citiRow resolve)

/-! ## Account-name resolution (`models.py` lines 52-72, `config.py` lines
168-194) -/

structure AccountMapping where
  identifier : Str
  name : Str
  bank : Str
  accountType : Str
  deriving DecidableEq, Repr

/-- `value.replace("-", "").replace(" ", "")`. -/
def cleanIdStr (s : Str) : Str :=
  s.filter (fun c => !(c = '-' || c = ' '))

/-- Python `s[-n:]` for `n ≥ 1`. -/
def lastN (n : Nat) (s : Str) : Str := s.drop (s.length - n)

/-- `AccountMapping.matches`: exact match on the cleaned identifiers, or a
last-4-digits match when the cleaned value has at least 4 characters. -/
def AccountMapping.matches (m : AccountMapping) (value : Str) : Bool :=
  let cleanValue := cleanIdStr value
  let cleanId := cleanIdStr m.identifier
  decide (cleanValue = cleanId) ||
    (decide (4 ≤ cleanValue.length) &&
     decide (lastN 4 cleanValue = lastN 4 cleanId))

/-- `get_account_name(identifier, mappings)`: first matching mapping wins;
otherwise fall back to `"Unknown (<last 4>)"` when the cleaned identifier
has at least 4 characters, else return the identifier unchanged. -/
def get_account_name (identifier : Str) : List AccountMapping → Str
  | [] =>
      let cleanId := cleanIdStr identifier
      if 4 ≤ cleanId.length then str "Unknown (" ++ lastN 4 cleanId ++ [')']
      else identifier
  | m :: ms =>
      if m.matches identifier then m.name else get_account_name identifier ms

/-! ## Parser registry (`parsers/base.py` lines 92-143)

The registry stores parser classes and compares them by identity; variants
are modelled as an arbitrary type with decidable equality, with `can_parse`
supplied as a function (instantiation of the selected class is not
modelled: `get_parser` returns the selected variant). -/

def ParserRegistry.register {V : Type} [DecidableEq V] (v : V) (l : List V) :
    List V :=
  if v ∈ l then l else l ++ [v]

def ParserRegistry.getParser {V : Type} (canParse : V → Str → Bool)
    (content : Str) (l : List V) : Option V :=
  l.find? (fun p => canParse p content)

/-! ## Normalizer (`normalizer.py`)

`process_file` performs file I/O and dynamic dispatch; it is modelled over
a `FileInput` carrying the outcome of `read_file` (content or error
message) and over parsers given by their observable behavior (`can_parse`,
and `parse` which either returns transactions or raises, modelled as
`Except`).  The `pending_skipped` accumulation is not modelled. -/

def dedupKey (t : Transaction) : Date × Str × Str × Str :=
  (t.date, t.description.take 30, decStr t.amount, t.account)

def dedupAux (seen : List (Date × Str × Str × Str)) :
    List Transaction → List Transaction
  | [] => []
  | t :: ts =>
      if dedupKey t ∈ seen then dedupAux seen ts
      else t :: dedupAux (dedupKey t :: seen) ts

/-- `BankNormalizer._deduplicate`: keep the first transaction for each
`(date, description[:30], str(amount), account)` key. -/
def BankNormalizer.deduplicate (ts : List Transaction) : List Transaction :=
  dedupAux [] ts

/-- `datetime.date` ordering: lexicographic on (year, month, day). -/
def dateLeb (a b : Date) : Bool :=
  decide (a.year < b.year ∨ (a.year = b.year ∧
    (a.month < b.month ∨ (a.month = b.month ∧ a.day ≤ b.day))))

/-- Stable insertion for the descending-by-date sort: the new element goes
after every already-placed element whose date is ≥ its own. -/
def insertDesc (t : Transaction) : List Transaction → List Transaction
  | [] => [t]
  | u :: us =>
      if dateLeb t.date u.date then u :: insertDesc t us else t :: u :: us

/-- `transactions.sort(key=lambda t: t.date, reverse=True)`: a stable
descending sort by date.  Python's sort is stable with `reverse=True`
(ties keep their original order), and a stable sort under a total preorder
is unique, so stable insertion computes the same list. -/
def sortByDateDesc (ts : List Transaction) : List Transaction :=
  ts.foldl (fun acc t => insertDesc t acc) []

/-- The pure tail of `process_files`: concatenation already done, then
optional deduplication, then optional sorting. -/
def processPipeline (dedupe sortDesc : Bool)
    (fileResults : List (List Transaction)) : List Transaction :=
  let all := fileResults.flatten
  let all' := if dedupe then BankNormalizer.deduplicate all else all
  if sortDesc then sortByDateDesc all' else all'

/-- A parser as `process_file` observes it. -/
structure ModelParser where
  canParse : Str → Bool
  parse : Str → Except Str (List Transaction)

/-- A file as `process_file` observes it: its path and the outcome of
`read_file`. -/
structure FileInput where
  path : Str
  content : Except Str Str

/-- `BankNormalizer.process_file`: returns the file's transactions and an
optional `(filepath, message)` error.  A read failure, a missing parser, or
an exception from `parse` each yield no transactions and one error. -/
def BankNormalizer.processFile (parsers : List ModelParser) (f : FileInput) :
    List Transaction × Option (Str × Str) :=
  match f.content with
  | .error e => ([], some (f.path, e))
  | .ok content =>
      match parsers.find? (fun p => p.canParse content) with
      | none => ([], some (f.path, str "No parser found for this file format"))
      | some p =>
          match p.parse content with
          | .ok ts => (ts, none)
          | .error e => ([], some (f.path, str "Parse error: " ++ e))

/-- `BankNormalizer.process_files`: process each file independently,
concatenate, then deduplicate/sort per configuration; errors accumulate in
file order. -/
def BankNormalizer.processFiles (dedupe sortDesc : Bool)
    (parsers : List ModelParser) (files : List FileInput) :
    List Transaction × List (Str × Str) :=
  let results := files.map (BankNormalizer.processFile parsers)
  (processPipeline dedupe sortDesc (results.map Prod.fst),
   results.filterMap Prod.snd)

/-! ## Lemmas about the whitespace utilities -/

theorem dropWhile_eq_self_of_not {p : Char → Bool} {l : Str}
    (h : ∀ c ∈ l, p c = false) : l.dropWhile p = l := by
  cases l with
  | nil => rfl
  | cons c cs => simp [List.dropWhile, h c (List.mem_cons_self c cs)]

theorem pyStrip_eq_self {l : Str} (h : ∀ c ∈ l, isWs c = false) :
    pyStrip l = l := by
  unfold pyStrip
  rw [dropWhile_eq_self_of_not h,
      dropWhile_eq_self_of_not (fun c hc => h c (List.mem_reverse.mp hc)),
      List.reverse_reverse]

/-- Every word produced by `splitWsAux` from a whitespace-free accumulator
is nonempty and whitespace-free. -/
theorem splitWsAux_words :
    ∀ s cur : Str, (∀ c ∈ cur, isWs c = false) →
      ∀ w ∈ splitWsAux cur s, w ≠ [] ∧ ∀ c ∈ w, isWs c = false := by
  intro s
  induction s with
  | nil =>
      intro cur hcur w hw
      rw [splitWsAux] at hw
      by_cases h : cur = []
      · simp [h] at hw
      · rw [if_neg h] at hw
        simp only [List.mem_singleton] at hw
        subst hw
        exact ⟨by simpa using h, fun c hc => hcur c (List.mem_reverse.mp hc)⟩
  | cons c cs ih =>
      intro cur hcur w hw
      rw [splitWsAux] at hw
      by_cases hc : isWs c
      · rw [if_pos hc] at hw
        by_cases h : cur = []
        · rw [if_pos h] at hw
          exact ih [] (by simp) w hw
        · rw [if_neg h] at hw
          rcases List.mem_cons.mp hw with rfl | hw
          · exact ⟨by simpa using h,
              fun d hd => hcur d (List.mem_reverse.mp hd)⟩
          · exact ih [] (by simp) w hw
      · rw [if_neg hc] at hw
        refine ih (c :: cur) ?_ w hw
        intro d hd
        rcases List.mem_cons.mp hd with rfl | hd
        · simpa using hc
        · exact hcur d hd

/-- Every word produced by `splitWs` is nonempty and whitespace-free. -/
theorem splitWs_words (s : Str) :
    ∀ w ∈ splitWs s, w ≠ [] ∧ ∀ c ∈ w, isWs c = false :=
  splitWsAux_words s [] (by simp)

theorem splitWsAux_word_chunk :
    ∀ w cur t : Str, (∀ c ∈ w, isWs c = false) →
      splitWsAux cur (w ++ t) = splitWsAux (w.reverse ++ cur) t := by
  intro w
  induction w with
  | nil => intro cur t _; simp
  | cons c cs ih =>
      intro cur t h
      rw [List.cons_append, splitWsAux,
        if_neg (by simp [h c (List.mem_cons_self c cs)]),
        ih (c :: cur) t (fun d hd => h d (List.mem_cons_of_mem c hd))]
      congr 1
      simp

theorem splitWs_joinSp :
    ∀ ws : List Str, (∀ w ∈ ws, w ≠ [] ∧ ∀ c ∈ w, isWs c = false) →
      splitWs (joinSp ws) = ws := by
  intro ws
  induction ws using joinSp.induct with
  | case1 => intro _; simp [joinSp, splitWs, splitWsAux]
  | case2 w =>
      intro h
      obtain ⟨hne, hws⟩ := h w (List.mem_cons_self w [])
      rw [joinSp]
      unfold splitWs
      rw [show w = w ++ [] from by simp, splitWsAux_word_chunk w [] [] hws]
      rw [splitWsAux, if_neg (by simpa using hne)]
      simp
  | case3 w v ws ih =>
      intro h
      obtain ⟨hne, hws⟩ := h w (List.mem_cons_self w (v :: ws))
      have hrest : ∀ w' ∈ v :: ws, w' ≠ [] ∧ ∀ c' ∈ w', isWs c' = false :=
        fun w' hw' => h w' (List.mem_cons_of_mem _ hw')
      rw [joinSp]
      unfold splitWs
      rw [splitWsAux_word_chunk w [] (' ' :: joinSp (v :: ws)) hws]
      rw [splitWsAux, if_pos (by decide),
        if_neg (by simpa using hne)]
      have := ih hrest
      unfold splitWs at this
      rw [this]
      simp

theorem collapseWs_idem (s : Str) : collapseWs (collapseWs s) = collapseWs s := by
  unfold collapseWs
  rw [splitWs_joinSp _ (splitWs_words s)]

theorem joinSp_ne_nil :
    ∀ ws : List Str, ws ≠ [] → (∀ w ∈ ws, w ≠ []) → joinSp ws ≠ [] := by
  intro ws
  induction ws using joinSp.induct with
  | case1 => intro h; exact absurd rfl h
  | case2 w => intro _ h; rw [joinSp]; exact h w (List.mem_cons_self w [])
  | case3 w v ws _ =>
      intro _ h
      rw [joinSp]
      obtain ⟨c, cs, rfl⟩ :=
        List.exists_cons_of_ne_nil (h _ (List.mem_cons_self w _))
      simp

theorem joinSp_head_not_ws :
    ∀ ws : List Str, (∀ w ∈ ws, w ≠ [] ∧ ∀ c ∈ w, isWs c = false) →
      ∀ c, (joinSp ws).head? = some c → isWs c = false := by
  intro ws
  induction ws using joinSp.induct with
  | case1 => intro _ c hc; simp [joinSp] at hc
  | case2 w =>
      intro h c hc
      obtain ⟨hne, hws⟩ := h w (List.mem_cons_self w [])
      rw [joinSp] at hc
      exact hws c (List.mem_of_mem_head? hc)
  | case3 w v ws _ =>
      intro h c hc
      obtain ⟨hne, hws⟩ := h w (List.mem_cons_self w _)
      rw [joinSp] at hc
      obtain ⟨d, ds, rfl⟩ := List.exists_cons_of_ne_nil hne
      simp only [List.cons_append, List.head?_cons, Option.some.injEq] at hc
      exact hc ▸ hws d (List.mem_cons_self d ds)

theorem joinSp_getLast_not_ws :
    ∀ ws : List Str, (∀ w ∈ ws, w ≠ [] ∧ ∀ c ∈ w, isWs c = false) →
      ∀ c, (joinSp ws).getLast? = some c → isWs c = false := by
  intro ws
  induction ws using joinSp.induct with
  | case1 => intro _ c hc; simp [joinSp] at hc
  | case2 w =>
      intro h c hc
      obtain ⟨hne, hws⟩ := h w (List.mem_cons_self w [])
      rw [joinSp] at hc
      exact hws c (List.mem_of_mem_getLast? hc)
  | case3 w v ws ih =>
      intro h c hc
      rw [joinSp] at hc
      have hrest : ∀ w' ∈ v :: ws, w' ≠ [] ∧ ∀ c' ∈ w', isWs c' = false :=
        fun w' hw' => h w' (List.mem_cons_of_mem _ hw')
      have hjne : joinSp (v :: ws) ≠ [] :=
        joinSp_ne_nil (v :: ws) (by simp) (fun w' hw' => (hrest w' hw').1)
      obtain ⟨d, ds, hds⟩ := List.exists_cons_of_ne_nil hjne
      have hstep : (w ++ ' ' :: joinSp (v :: ws)).getLast?
          = (joinSp (v :: ws)).getLast? := by
        rw [List.getLast?_append, hds, List.getLast?_cons_cons]
        cases hgl : (d :: ds).getLast? with
        | none => exact absurd (List.getLast?_eq_none_iff.mp hgl) (by simp)
        | some e => rfl
      rw [hstep] at hc
      exact ih hrest c hc

theorem pyStrip_collapseWs (s : Str) : pyStrip (collapseWs s) = collapseWs s := by
  unfold collapseWs pyStrip
  have hgood := splitWs_words s
  have h1 : (joinSp (splitWs s)).dropWhile isWs = joinSp (splitWs s) := by
    cases hj : joinSp (splitWs s) with
    | nil => rfl
    | cons c cs =>
        have : isWs c = false := by
          refine joinSp_head_not_ws _ hgood c ?_
          rw [hj]; rfl
        simp [List.dropWhile, this]
  rw [h1]
  have h2 : (joinSp (splitWs s)).reverse.dropWhile isWs
      = (joinSp (splitWs s)).reverse := by
    cases hj : (joinSp (splitWs s)).reverse with
    | nil => rfl
    | cons c cs =>
        have hlast : (joinSp (splitWs s)).getLast? = some c := by
          rw [← List.head?_reverse, hj]
          rfl
        have := joinSp_getLast_not_ws _ hgood c hlast
        simp [List.dropWhile, this]
  rw [h2, List.reverse_reverse]

/-- `clean_description` always ends by collapsing whitespace; the final
`strip` is redundant. -/
theorem clean_description_eq (x : Str) :
    clean_description x =
      collapseWs (removeTrailingCode (removeRefNo (removeMask2
        (removeMask1 (collapseWs x))))) := by
  unfold clean_description
  exact pyStrip_collapseWs _

theorem collapseWs_clean_description (x : Str) :
    collapseWs (clean_description x) = clean_description x := by
  rw [clean_description_eq]
  exact collapseWs_idem _

/-! ## Character-class facts for the parse_amount proofs -/

theorem isDigit_ne {c d : Char} (h : c.isDigit = true)
    (hd : d.isDigit = false) : ¬(c = d) := by
  intro he
  rw [he, hd] at h
  exact Bool.false_ne_true h

theorem isDigit_not_ws {c : Char} (h : c.isDigit = true) : isWs c = false := by
  cases hw : isWs c
  · rfl
  · exfalso
    have : c = ' ' ∨ c = '\t' ∨ c = '\n' ∨ c = '\r' ∨ c = '\x0b' ∨
        c = '\x0c' := by simpa [isWs, or_assoc] using hw
    rcases this with rfl | rfl | rfl | rfl | rfl | rfl <;>
      exact absurd h (by decide)

theorem isDigit_not_currency {c : Char} (h : c.isDigit = true) :
    isCurrencyChar c = false := by
  cases hw : isCurrencyChar c
  · rfl
  · exfalso
    have : c = 'S' ∨ c = 'G' ∨ c = 'D' ∨ c = '$' ∨ isWs c = true := by
      simpa [isCurrencyChar, or_assoc] using hw
    rcases this with rfl | rfl | rfl | rfl | hww
    · exact absurd h (by decide)
    · exact absurd h (by decide)
    · exact absurd h (by decide)
    · exact absurd h (by decide)
    · rw [isDigit_not_ws h] at hww; exact Bool.false_ne_true hww

theorem takeWhile_append_stop {p : Char → Bool} {l r : Str} {x : Char}
    (hl : ∀ c ∈ l, p c = true) (hx : p x = false) :
    (l ++ x :: r).takeWhile p = l := by
  induction l with
  | nil => simp [List.takeWhile_cons, hx]
  | cons c cs ih =>
      rw [List.cons_append, List.takeWhile_cons,
        hl c (List.mem_cons_self c cs), if_pos rfl]
      rw [ih (fun d hd => hl d (List.mem_cons_of_mem c hd))]

theorem dropWhile_append_stop {p : Char → Bool} {l r : Str} {x : Char}
    (hl : ∀ c ∈ l, p c = true) (hx : p x = false) :
    (l ++ x :: r).dropWhile p = x :: r := by
  induction l with
  | nil => simp [List.dropWhile_cons, hx]
  | cons c cs ih =>
      rw [List.cons_append, List.dropWhile_cons,
        if_pos (by rw [hl c (List.mem_cons_self c cs)])]
      exact ih (fun d hd => hl d (List.mem_cons_of_mem c hd))

theorem pyStripChar_eq_self {x : Char} {l : Str} (h : ∀ c ∈ l, ¬(c = x)) :
    pyStripChar x l = l := by
  unfold pyStripChar
  rw [dropWhile_eq_self_of_not
        (fun c hc => decide_eq_false (h c hc)),
      dropWhile_eq_self_of_not
        (fun c hc => decide_eq_false (h c (List.mem_reverse.mp hc))),
      List.reverse_reverse]

/-- `Decimal` on a digits-dot-digits literal with a nonempty integer part. -/
theorem decOfStr_digits (ds fs : Str) (hne : ds ≠ [])
    (hds : ∀ c ∈ ds, c.isDigit = true) (hfs : ∀ c ∈ fs, c.isDigit = true) :
    decOfStr (ds ++ '.' :: fs) =
      some ⟨false, natOfDigits (ds ++ fs), -(fs.length : Int)⟩ := by
  obtain ⟨d, ds', rfl⟩ := List.exists_cons_of_ne_nil hne
  have hd : d.isDigit = true := hds d (List.mem_cons_self d ds')
  have hhead : ((d :: ds') ++ '.' :: fs).head? = some d := rfl
  unfold decOfStr
  simp only [hhead]
  have hsign : ¬(some d = some '-' ∨ some d = some '+') := by
    rintro (he | he) <;> rw [Option.some.injEq] at he
    · exact isDigit_ne hd (by decide) he
    · exact isDigit_ne hd (by decide) he
  rw [if_neg hsign]
  have hdot : ('.' : Char).isDigit = false := by decide
  rw [show ((d :: ds') ++ '.' :: fs : Str) = (d :: ds') ++ '.' :: fs from rfl,
    takeWhile_append_stop hds hdot, dropWhile_append_stop hds hdot]
  rw [if_neg (by simp), if_pos ⟨rfl, by simpa using hfs, by simp⟩]
  rw [decide_eq_false (by simp [isDigit_ne (d := '-') hd (by decide)] :
        ¬(some d = some '-'))]
  simp

/-- With no whitespace and no quote characters, the trimming stage of
`parse_amount` is the identity. -/
theorem parse_amount_no_ws (t : Str) (ht : t ≠ [])
    (hws : ∀ c ∈ t, isWs c = false) (hq : ∀ c ∈ t, ¬(c = '"')) :
    parse_amount t =
      if t.head? = some '(' ∧ t.getLast? = some ')' then
        parseAmountTail true ((t.drop 1).dropLast)
      else parseAmountTail false t := by
  have e1 := pyStrip_eq_self hws
  have e2 := pyStripChar_eq_self hq
  unfold parse_amount
  rw [e1, e2, e1, if_neg (by simp [ht]), if_neg ht]

/-! ## C1: sign handling in parse_amount -/

/-- C1 counterexample: an amount that is both parenthesized and carries an
inner leading minus parses as negative — the two indicators do not cancel:
`parse_amount("(-123.45)")` is `-123.45`, not `123.45`. -/
theorem parse_amount_double_negative_counterexample :
    parse_amount (str "(-123.45)") = some ⟨true, 12345, -2⟩ ∧
    ¬parse_amount (str "(-123.45)") = some ⟨false, 12345, -2⟩ := by
  decide

/-- C1 (amended): the negativity indicators combine as an inclusive OR, not
an exclusive one: for a nonzero plain decimal literal `X = ds.fs`, the
inputs `(-X)`, `-X` and `(X)` all parse to the negation of `X`, and `X`
parses positive. -/
theorem parse_amount_sign_rules (ds fs : Str) (hne : ds ≠ [])
    (hds : ∀ c ∈ ds, c.isDigit = true) (hfs : ∀ c ∈ fs, c.isDigit = true)
    (hnz : natOfDigits (ds ++ fs) ≠ 0) :
    parse_amount ('(' :: '-' :: ds ++ '.' :: fs ++ [')']) =
      some ⟨true, natOfDigits (ds ++ fs), -(fs.length : Int)⟩ ∧
    parse_amount ('-' :: ds ++ '.' :: fs) =
      some ⟨true, natOfDigits (ds ++ fs), -(fs.length : Int)⟩ ∧
    parse_amount ('(' :: ds ++ '.' :: fs ++ [')']) =
      some ⟨true, natOfDigits (ds ++ fs), -(fs.length : Int)⟩ ∧
    parse_amount (ds ++ '.' :: fs) =
      some ⟨false, natOfDigits (ds ++ fs), -(fs.length : Int)⟩ := by
  obtain ⟨d, ds', rfl⟩ := List.exists_cons_of_ne_nil hne
  have hd : d.isDigit = true := hds d (List.mem_cons_self d ds')
  have hds' : ∀ c ∈ ds', c.isDigit = true :=
    fun c hc => hds c (List.mem_cons_of_mem d hc)
  have hOK : ∀ c, c = '(' ∨ c = '-' ∨ c = ')' ∨ c = '.' ∨ c = d ∨
      c ∈ ds' ∨ c ∈ fs → isWs c = false ∧ ¬(c = '"') := by
    intro c hc
    rcases hc with rfl | rfl | rfl | rfl | rfl | hc | hc
    · exact ⟨by decide, by decide⟩
    · exact ⟨by decide, by decide⟩
    · exact ⟨by decide, by decide⟩
    · exact ⟨by decide, by decide⟩
    · exact ⟨isDigit_not_ws hd, isDigit_ne (d := '"') hd (by decide)⟩
    · exact ⟨isDigit_not_ws (hds' c hc),
        isDigit_ne (d := '"') (hds' c hc) (by decide)⟩
    · exact ⟨isDigit_not_ws (hfs c hc),
        isDigit_ne (d := '"') (hfs c hc) (by decide)⟩
  have hfCur : ((d :: ds') ++ '.' :: fs).filter (fun c => !isCurrencyChar c) =
      (d :: ds') ++ '.' :: fs := by
    refine List.filter_eq_self.mpr ?_
    intro c hc
    simp only [List.cons_append, List.mem_cons, List.mem_append] at hc
    rcases hc with rfl | hc | rfl | hc
    · simp [isDigit_not_currency hd]
    · simp [isDigit_not_currency (hds' c hc)]
    · decide
    · simp [isDigit_not_currency (hfs c hc)]
  have hfCom : ((d :: ds') ++ '.' :: fs).filter (fun c => !(c = ',')) =
      (d :: ds') ++ '.' :: fs := by
    refine List.filter_eq_self.mpr ?_
    intro c hc
    simp only [List.cons_append, List.mem_cons, List.mem_append] at hc
    rcases hc with rfl | hc | rfl | hc
    · simp [isDigit_ne (d := ',') hd (by decide)]
    · simp [isDigit_ne (d := ',') (hds' c hc) (by decide)]
    · decide
    · simp [isDigit_ne (d := ',') (hfs c hc) (by decide)]
  have hval := decOfStr_digits (d :: ds') fs hne hds hfs
  have hneg : decNeg ⟨false, natOfDigits ((d :: ds') ++ fs),
      -(fs.length : Int)⟩ =
      ⟨true, natOfDigits ((d :: ds') ++ fs), -(fs.length : Int)⟩ := by
    unfold decNeg
    rw [if_neg hnz]
    rfl
  have htailPlain : ∀ b : Bool,
      parseAmountTail b ((d :: ds') ++ '.' :: fs) =
        some (if b then
          ⟨true, natOfDigits ((d :: ds') ++ fs), -(fs.length : Int)⟩
        else ⟨false, natOfDigits ((d :: ds') ++ fs), -(fs.length : Int)⟩) := by
    intro b
    simp only [parseAmountTail]
    rw [hfCur, hfCom]
    rw [if_neg (by
      rw [show ((d :: ds') ++ '.' :: fs : Str).head? = some d from rfl]
      simp [isDigit_ne (d := '-') hd (by decide)])]
    rw [show ((b, (d :: ds') ++ '.' :: fs) : Bool × Str).2 =
        (d :: ds') ++ '.' :: fs from rfl]
    rw [hval]
    cases b
    · rfl
    · show some (decNeg ⟨false, natOfDigits ((d :: ds') ++ fs),
          -(fs.length : Int)⟩) =
        some ⟨true, natOfDigits ((d :: ds') ++ fs), -(fs.length : Int)⟩
      rw [hneg]
  have htailMinus : ∀ b : Bool,
      parseAmountTail b ('-' :: ((d :: ds') ++ '.' :: fs)) =
        some ⟨true, natOfDigits ((d :: ds') ++ fs), -(fs.length : Int)⟩ := by
    intro b
    simp only [parseAmountTail]
    rw [List.filter_cons_of_pos (p := fun c => !isCurrencyChar c)
      (a := '-') (by decide), hfCur]
    rw [List.filter_cons_of_pos (p := fun c => !decide (c = ','))
      (a := '-') (by decide), hfCom]
    rw [if_pos (show ('-' :: ((d :: ds') ++ '.' :: fs) : Str).head? =
      some '-' from rfl)]
    rw [show ((true, List.drop 1 ('-' :: ((d :: ds') ++ '.' :: fs))) :
        Bool × Str).2 = (d :: ds') ++ '.' :: fs from rfl]
    rw [hval]
    show some (decNeg ⟨false, natOfDigits ((d :: ds') ++ fs),
        -(fs.length : Int)⟩) =
      some ⟨true, natOfDigits ((d :: ds') ++ fs), -(fs.length : Int)⟩
    rw [hneg]
  refine ⟨?_, ?_, ?_, ?_⟩
  · have hA : ('(' :: '-' :: (d :: ds') ++ '.' :: fs ++ [')'] : Str) =
        ('(' :: '-' :: ((d :: ds') ++ '.' :: fs)) ++ [')'] := by simp
    have hmem : ∀ c ∈ (('(' :: '-' :: ((d :: ds') ++ '.' :: fs)) ++ [')'] :
        Str), isWs c = false ∧ ¬(c = '"') := by
      intro c hc
      simp only [List.cons_append, List.mem_append, List.mem_cons,
        List.mem_singleton] at hc
      apply hOK
      tauto
    rw [hA, parse_amount_no_ws _ (by simp) (fun c hc => (hmem c hc).1)
      (fun c hc => (hmem c hc).2)]
    rw [if_pos ⟨rfl, List.getLast?_concat _⟩]
    rw [show ((('(' :: '-' :: ((d :: ds') ++ '.' :: fs)) ++ [')'] :
        Str).drop 1) = ('-' :: ((d :: ds') ++ '.' :: fs)) ++ [')'] from rfl,
      List.dropLast_concat]
    exact htailMinus true
  · have hB : ('-' :: (d :: ds') ++ '.' :: fs : Str) =
        '-' :: ((d :: ds') ++ '.' :: fs) := by simp
    have hmem : ∀ c ∈ ('-' :: ((d :: ds') ++ '.' :: fs) : Str),
        isWs c = false ∧ ¬(c = '"') := by
      intro c hc
      simp only [List.cons_append, List.mem_cons, List.mem_append] at hc
      apply hOK
      tauto
    rw [hB, parse_amount_no_ws _ (by simp) (fun c hc => (hmem c hc).1)
      (fun c hc => (hmem c hc).2)]
    rw [if_neg (by
      rintro ⟨hh, -⟩
      rw [List.head?_cons, Option.some.injEq] at hh
      exact absurd hh (by decide))]
    exact htailMinus false
  · have hC : ('(' :: (d :: ds') ++ '.' :: fs ++ [')'] : Str) =
        ('(' :: ((d :: ds') ++ '.' :: fs)) ++ [')'] := by simp
    have hmem : ∀ c ∈ (('(' :: ((d :: ds') ++ '.' :: fs)) ++ [')'] : Str),
        isWs c = false ∧ ¬(c = '"') := by
      intro c hc
      simp only [List.cons_append, List.mem_append, List.mem_cons,
        List.mem_singleton] at hc
      apply hOK
      tauto
    rw [hC, parse_amount_no_ws _ (by simp) (fun c hc => (hmem c hc).1)
      (fun c hc => (hmem c hc).2)]
    rw [if_pos ⟨rfl, List.getLast?_concat _⟩]
    rw [show ((('(' :: ((d :: ds') ++ '.' :: fs)) ++ [')'] :
        Str).drop 1) = ((d :: ds') ++ '.' :: fs) ++ [')'] from rfl,
      List.dropLast_concat]
    rw [htailPlain true]
    rfl
  · have hmem : ∀ c ∈ ((d :: ds') ++ '.' :: fs : Str),
        isWs c = false ∧ ¬(c = '"') := by
      intro c hc
      simp only [List.cons_append, List.mem_cons, List.mem_append] at hc
      apply hOK
      tauto
    rw [parse_amount_no_ws _ (by simp) (fun c hc => (hmem c hc).1)
      (fun c hc => (hmem c hc).2)]
    rw [if_neg (by
      rintro ⟨hh, -⟩
      rw [show ((d :: ds') ++ '.' :: fs : Str).head? = some d from rfl,
        Option.some.injEq] at hh
      exact isDigit_ne (d := '(') hd (by decide) hh)]
    rw [htailPlain false]
    rfl

/-- Witness for C1 at `ds = "123"`, `fs = "45"`: `"(-123.45)"`, `"-123.45"`
and `"(123.45)"` all parse to `-123.45`, and `"123.45"` parses to
`123.45`. -/
theorem parse_amount_sign_rules_witness :
    parse_amount (str "(-123.45)") = some ⟨true, 12345, -2⟩ ∧
    parse_amount (str "-123.45") = some ⟨true, 12345, -2⟩ ∧
    parse_amount (str "(123.45)") = some ⟨true, 12345, -2⟩ ∧
    parse_amount (str "123.45") = some ⟨false, 12345, -2⟩ := by
  have h := parse_amount_sign_rules (str "123") (str "45") (by decide)
    (by decide) (by decide) (by decide)
  refine ⟨?_, ?_, ?_, ?_⟩
  · have := h.1
    rw [show ('(' :: '-' :: str "123" ++ '.' :: str "45" ++ [')'] : Str) =
      str "(-123.45)" from by decide] at this
    rw [this]
    decide
  · have := h.2.1
    rw [show ('-' :: str "123" ++ '.' :: str "45" : Str) =
      str "-123.45" from by decide] at this
    rw [this]
    decide
  · have := h.2.2.1
    rw [show ('(' :: str "123" ++ '.' :: str "45" ++ [')'] : Str) =
      str "(123.45)" from by decide] at this
    rw [this]
    decide
  · have := h.2.2.2
    rw [show (str "123" ++ '.' :: str "45" : Str) =
      str "123.45" from by decide] at this
    rw [this]
    decide

/-! ## C2: idempotence of clean_description -/

/-- C2 counterexample: `clean_description` is not idempotent.  The trailing
country-code pattern is anchored at the end of the string, so it removes one
trailing code per application: `"A SG SG"` cleans to `"A SG"`, which cleans
again to `"A"`. -/
theorem clean_description_not_idempotent :
    clean_description (clean_description (str "A SG SG")) ≠
      clean_description (str "A SG SG") := by
  decide

/-- C2 (amended): `clean_description` is idempotent on every input whose
cleaned result is a fixed point of the four removal passes (the two
card-mask patterns, the reference-number pattern and the trailing
country/currency-code pattern); when a first pass exposes a new removable
fragment — e.g. a second trailing country code, as in `"A SG SG"` — a
second application removes more. -/
theorem clean_description_idem (x : Str)
    (h1 : removeMask1 (clean_description x) = clean_description x)
    (h2 : removeMask2 (clean_description x) = clean_description x)
    (h3 : removeRefNo (clean_description x) = clean_description x)
    (h4 : removeTrailingCode (clean_description x) = clean_description x) :
    clean_description (clean_description x) = clean_description x := by
  rw [clean_description_eq (clean_description x), collapseWs_clean_description,
    h1, h2, h3, h4, collapseWs_clean_description]

/-- Witness for C2 at a concrete input with no removable fragment. -/
theorem clean_description_idem_witness :
    removeMask1 (clean_description (str "SHOPEE   SINGAPORE")) =
        clean_description (str "SHOPEE   SINGAPORE") ∧
    removeMask2 (clean_description (str "SHOPEE   SINGAPORE")) =
        clean_description (str "SHOPEE   SINGAPORE") ∧
    removeRefNo (clean_description (str "SHOPEE   SINGAPORE")) =
        clean_description (str "SHOPEE   SINGAPORE") ∧
    removeTrailingCode (clean_description (str "SHOPEE   SINGAPORE")) =
        clean_description (str "SHOPEE   SINGAPORE") ∧
    clean_description (clean_description (str "SHOPEE   SINGAPORE")) =
        clean_description (str "SHOPEE   SINGAPORE") :=
  ⟨by decide, by decide, by decide, by decide,
   clean_description_idem (str "SHOPEE   SINGAPORE")
     (by decide) (by decide) (by decide) (by decide)⟩

/-! ## Deduplication lemmas -/

theorem mem_dedupAux (t : Transaction) :
    ∀ (ts : List Transaction) (seen : List (Date × Str × Str × Str)),
      t ∈ dedupAux seen ts ↔
        dedupKey t ∉ seen ∧ ∃ pre post, ts = pre ++ t :: post ∧
          ∀ u ∈ pre, dedupKey u ≠ dedupKey t := by
  intro ts
  induction ts with
  | nil =>
      intro seen
      simp only [dedupAux, List.not_mem_nil, false_iff, not_and]
      intro _ h
      obtain ⟨pre, post, h, -⟩ := h
      exact absurd h (by simp)
  | cons x rest ih =>
      intro seen
      rw [dedupAux]
      by_cases hx : dedupKey x ∈ seen
      · rw [if_pos hx, ih seen]
        constructor
        · rintro ⟨hnot, pre, post, rfl, hpre⟩
          refine ⟨hnot, x :: pre, post, rfl, ?_⟩
          intro u hu
          rcases List.mem_cons.mp hu with rfl | hu
          · intro he; rw [he] at hx; exact hnot hx
          · exact hpre u hu
        · rintro ⟨hnot, pre, post, heq, hpre⟩
          cases pre with
          | nil =>
              rw [List.nil_append, List.cons.injEq] at heq
              obtain ⟨rfl, rfl⟩ := heq
              exact absurd hx hnot
          | cons y pre' =>
              rw [List.cons_append, List.cons.injEq] at heq
              obtain ⟨rfl, heq⟩ := heq
              exact ⟨hnot, pre', post, heq,
                fun u hu => hpre u (List.mem_cons_of_mem _ hu)⟩
      · rw [if_neg hx]
        constructor
        · intro hmem
          rcases List.mem_cons.mp hmem with rfl | hmem
          · exact ⟨hx, [], rest, rfl, by simp⟩
          · obtain ⟨hnot, pre, post, rfl, hpre⟩ := (ih _).mp hmem
            have hne : dedupKey x ≠ dedupKey t := by
              intro he
              exact hnot (by rw [← he]; exact List.mem_cons_self _ _)
            have hnotseen : dedupKey t ∉ seen :=
              fun h => hnot (List.mem_cons_of_mem _ h)
            refine ⟨hnotseen, x :: pre, post, rfl, ?_⟩
            intro u hu
            rcases List.mem_cons.mp hu with rfl | hu
            · exact hne
            · exact hpre u hu
        · rintro ⟨hnot, pre, post, heq, hpre⟩
          cases pre with
          | nil =>
              rw [List.nil_append, List.cons.injEq] at heq
              obtain ⟨rfl, rfl⟩ := heq
              exact List.mem_cons_self _ _
          | cons y pre' =>
              rw [List.cons_append, List.cons.injEq] at heq
              obtain ⟨rfl, heq⟩ := heq
              refine List.mem_cons_of_mem _ ((ih _).mpr
                ⟨?_, pre', post, heq,
                  fun u hu => hpre u (List.mem_cons_of_mem _ hu)⟩)
              intro hmem
              rcases List.mem_cons.mp hmem with he | he
              · exact hpre x (List.mem_cons_self _ _) he.symm
              · exact hnot he

theorem dedupAux_sublist :
    ∀ (ts : List Transaction) (seen : List (Date × Str × Str × Str)),
      List.Sublist (dedupAux seen ts) ts := by
  intro ts
  induction ts with
  | nil => intro seen; simp [dedupAux]
  | cons x rest ih =>
      intro seen
      rw [dedupAux]
      split
      · exact (ih seen).cons x
      · exact (ih _).cons₂ x

theorem dedupAux_pairwise :
    ∀ (ts : List Transaction) (seen : List (Date × Str × Str × Str)),
      (dedupAux seen ts).Pairwise (fun a b => dedupKey a ≠ dedupKey b) := by
  intro ts
  induction ts with
  | nil => intro seen; simp [dedupAux]
  | cons x rest ih =>
      intro seen
      rw [dedupAux]
      split
      · exact ih seen
      · refine List.Pairwise.cons ?_ (ih _)
        intro u hu
        have hnot := ((mem_dedupAux u rest _).mp hu).1
        intro he
        exact hnot (by rw [← he]; exact List.mem_cons_self _ _)

/-! ## C4: deduplication semantics -/

/-- C4: with deduplication enabled, exactly the first occurrence (in
concatenated input order) of each `(date, description[:30], str(amount),
account)` key is kept: membership in the output is equivalent to being a
first occurrence, the output is a sublist of the input (order preserved),
and no two output transactions share a key.  In particular two key-equal
transactions from two different files yield one output transaction with
dedup enabled and two with it disabled. -/
theorem deduplicate_spec :
    (∀ ts t, t ∈ BankNormalizer.deduplicate ts ↔
      ∃ pre post, ts = pre ++ t :: post ∧
        ∀ u ∈ pre, dedupKey u ≠ dedupKey t) ∧
    (∀ ts, List.Sublist (BankNormalizer.deduplicate ts) ts) ∧
    (∀ ts, (BankNormalizer.deduplicate ts).Pairwise
      (fun a b => dedupKey a ≠ dedupKey b)) ∧
    (∀ (s : Bool) t1 t2, dedupKey t1 = dedupKey t2 →
      processPipeline true s [[t1], [t2]] = [t1] ∧
      processPipeline false s [[t1], [t2]] = [t1, t2]) := by
  refine ⟨?_, fun ts => dedupAux_sublist ts [], fun ts => dedupAux_pairwise ts [], ?_⟩
  · intro ts t
    rw [BankNormalizer.deduplicate, mem_dedupAux]
    simp
  · intro s t1 t2 hk
    have hdate : t1.date = t2.date := congrArg (fun k => k.1) hk
    have hded : BankNormalizer.deduplicate [t1, t2] = [t1] := by
      rw [BankNormalizer.deduplicate, dedupAux, if_neg (by simp)]
      rw [dedupAux, if_pos (by simp [hk]), dedupAux]
    have hle : dateLeb t2.date t1.date = true := by
      rw [hdate]
      simp [dateLeb]
    have hsort2 : sortByDateDesc [t1, t2] = [t1, t2] := by
      simp [sortByDateDesc, insertDesc, hle]
    have hflat : ([[t1], [t2]] : List (List Transaction)).flatten =
        [t1, t2] := by simp
    constructor
    · cases s
      · simp [processPipeline, hded]
      · simp [processPipeline, hded, sortByDateDesc, insertDesc]
    · cases s
      · simp [processPipeline]
      · simp [processPipeline, hsort2]

/-- Witness for C4: two transactions equal on date, amount, account and the
first 30 description characters (differing at character 31) collapse to one
with dedup enabled, and stay two with it disabled. -/
theorem deduplicate_spec_witness :
    processPipeline true true
      [[mkTransaction ⟨2026, 1, 30⟩
          (str "AAAAAAAAAABBBBBBBBBBCCCCCCCCCCX") ⟨false, 1250, -2⟩
          (str "Acct")],
       [mkTransaction ⟨2026, 1, 30⟩
          (str "AAAAAAAAAABBBBBBBBBBCCCCCCCCCCY") ⟨false, 1250, -2⟩
          (str "Acct")]] =
      [mkTransaction ⟨2026, 1, 30⟩
        (str "AAAAAAAAAABBBBBBBBBBCCCCCCCCCCX") ⟨false, 1250, -2⟩
        (str "Acct")] ∧
    processPipeline false true
      [[mkTransaction ⟨2026, 1, 30⟩
          (str "AAAAAAAAAABBBBBBBBBBCCCCCCCCCCX") ⟨false, 1250, -2⟩
          (str "Acct")],
       [mkTransaction ⟨2026, 1, 30⟩
          (str "AAAAAAAAAABBBBBBBBBBCCCCCCCCCCY") ⟨false, 1250, -2⟩
          (str "Acct")]] =
      [mkTransaction ⟨2026, 1, 30⟩
        (str "AAAAAAAAAABBBBBBBBBBCCCCCCCCCCX") ⟨false, 1250, -2⟩
        (str "Acct"),
       mkTransaction ⟨2026, 1, 30⟩
        (str "AAAAAAAAAABBBBBBBBBBCCCCCCCCCCY") ⟨false, 1250, -2⟩
        (str "Acct")] :=
  deduplicate_spec.2.2.2 true
    (mkTransaction ⟨2026, 1, 30⟩
      (str "AAAAAAAAAABBBBBBBBBBCCCCCCCCCCX") ⟨false, 1250, -2⟩ (str "Acct"))
    (mkTransaction ⟨2026, 1, 30⟩
      (str "AAAAAAAAAABBBBBBBBBBCCCCCCCCCCY") ⟨false, 1250, -2⟩ (str "Acct"))
    (by decide)

/-! ## Sorting lemmas -/

theorem dateLeb_refl (a : Date) : dateLeb a a = true := by simp [dateLeb]

theorem dateLeb_total {a b : Date} (h : ¬dateLeb a b = true) :
    dateLeb b a = true := by
  simp [dateLeb] at h ⊢
  omega

theorem dateLeb_trans {a b c : Date} (h1 : dateLeb a b = true)
    (h2 : dateLeb b c = true) : dateLeb a c = true := by
  simp [dateLeb] at h1 h2 ⊢
  omega

theorem mem_insertDesc {t v : Transaction} :
    ∀ l, v ∈ insertDesc t l ↔ v = t ∨ v ∈ l := by
  intro l
  induction l with
  | nil => simp [insertDesc]
  | cons u us ih =>
      rw [insertDesc]
      split
      · rw [List.mem_cons, ih, List.mem_cons]
        tauto
      · rw [List.mem_cons, List.mem_cons]

theorem insertDesc_sorted {l : List Transaction} (t : Transaction)
    (h : l.Pairwise (fun a b => dateLeb b.date a.date = true)) :
    (insertDesc t l).Pairwise (fun a b => dateLeb b.date a.date = true) := by
  induction l with
  | nil => simp [insertDesc]
  | cons u us ih =>
      obtain ⟨hhead, htail⟩ := List.pairwise_cons.mp h
      rw [insertDesc]
      by_cases hle : dateLeb t.date u.date = true
      · rw [if_pos hle]
        refine List.pairwise_cons.mpr ⟨?_, ih htail⟩
        intro v hv
        rcases (mem_insertDesc us).mp hv with rfl | hv
        · exact hle
        · exact hhead v hv
      · rw [if_neg hle]
        refine List.pairwise_cons.mpr ⟨?_, h⟩
        intro v hv
        rcases List.mem_cons.mp hv with rfl | hv
        · exact dateLeb_total hle
        · exact dateLeb_trans (hhead v hv) (dateLeb_total hle)

theorem filter_insertDesc (dt : Date) (t : Transaction) :
    ∀ l : List Transaction,
      l.Pairwise (fun a b => dateLeb b.date a.date = true) →
      (insertDesc t l).filter (fun u => decide (u.date = dt)) =
        if t.date = dt then
          l.filter (fun u => decide (u.date = dt)) ++ [t]
        else l.filter (fun u => decide (u.date = dt)) := by
  intro l
  induction l with
  | nil =>
      intro _
      rw [insertDesc]
      by_cases h : t.date = dt <;> simp [h]
  | cons u us ih =>
      intro hs
      obtain ⟨hhead, htail⟩ := List.pairwise_cons.mp hs
      rw [insertDesc]
      by_cases hle : dateLeb t.date u.date = true
      · rw [if_pos hle, List.filter_cons, List.filter_cons, ih htail]
        by_cases hdt : t.date = dt
        · by_cases hu : u.date = dt
          · simp [hu, hdt]
          · simp [hu, hdt]
        · by_cases hu : u.date = dt
          · simp [hu, hdt]
          · simp [hu, hdt]
      · rw [if_neg hle]
        by_cases hdt : t.date = dt
        · rw [if_pos hdt]
          have hnone : ∀ v ∈ u :: us, ¬(v.date = dt) := by
            intro v hv he
            apply hle
            have hveq : t.date = v.date := by rw [hdt, he]
            rcases List.mem_cons.mp hv with rfl | hv
            · rw [hveq]
              exact dateLeb_refl _
            · exact dateLeb_trans (by rw [hveq]; exact dateLeb_refl _)
                (hhead v hv)
          have hz : (u :: us).filter (fun u => decide (u.date = dt)) = [] :=
            List.filter_eq_nil_iff.mpr
              (fun v hv => by simp [hnone v hv])
          rw [List.filter_cons, if_pos (by simp [hdt]), hz]
          simp
        · rw [if_neg hdt, List.filter_cons, if_neg (by simp [hdt])]

theorem sortFold_spec :
    ∀ ts acc : List Transaction,
      acc.Pairwise (fun a b => dateLeb b.date a.date = true) →
      (ts.foldl (fun acc t => insertDesc t acc) acc).Pairwise
        (fun a b => dateLeb b.date a.date = true) ∧
      ∀ dt, (ts.foldl (fun acc t => insertDesc t acc) acc).filter
          (fun u => decide (u.date = dt)) =
        acc.filter (fun u => decide (u.date = dt)) ++
          ts.filter (fun u => decide (u.date = dt)) := by
  intro ts
  induction ts with
  | nil =>
      intro acc h
      exact ⟨h, fun dt => by simp⟩
  | cons t rest ih =>
      intro acc h
      rw [List.foldl_cons]
      obtain ⟨h1, h2⟩ := ih (insertDesc t acc) (insertDesc_sorted t h)
      refine ⟨h1, fun dt => ?_⟩
      rw [h2 dt, filter_insertDesc dt t acc h, List.filter_cons]
      by_cases hdt : t.date = dt
      · rw [if_pos hdt, if_pos (by simp [hdt])]
        simp
      · rw [if_neg hdt, if_neg (by simp [hdt])]

/-! ## C5: stable descending sort by date -/

/-- C5: with sorting enabled the pipeline output is non-increasing by date,
and for every date the subsequence of transactions bearing that date is
exactly the one held before sorting (stable descending sort); `process_files`
feeds the pipeline the concatenated per-file results. -/
theorem processFiles_sorted_stable :
    (∀ (dedupe : Bool) (inputs : List (List Transaction)),
      (processPipeline dedupe true inputs).Pairwise
        (fun a b => dateLeb b.date a.date = true) ∧
      ∀ dt, (processPipeline dedupe true inputs).filter
          (fun u => decide (u.date = dt)) =
        ((if dedupe then BankNormalizer.deduplicate inputs.flatten
          else inputs.flatten) : List Transaction).filter
          (fun u => decide (u.date = dt))) ∧
    (∀ (dedupe : Bool) (parsers : List ModelParser) (files : List FileInput),
      (BankNormalizer.processFiles dedupe true parsers files).1 =
        processPipeline dedupe true
          ((files.map (BankNormalizer.processFile parsers)).map Prod.fst)) := by
  constructor
  · intro dedupe inputs
    have hkey := sortFold_spec
      (if dedupe then BankNormalizer.deduplicate inputs.flatten
       else inputs.flatten) [] (by simp)
    constructor
    · simp only [processPipeline]
      cases dedupe
      · simpa [sortByDateDesc] using hkey.1
      · simpa [sortByDateDesc] using hkey.1
    · intro dt
      simp only [processPipeline]
      cases dedupe
      · simpa [sortByDateDesc] using hkey.2 dt
      · simpa [sortByDateDesc] using hkey.2 dt
  · intro dedupe parsers files
    rfl

/-! ## C6: parse-time failure containment -/

/-- C6: when the selected parser's `parse` raises on a file, `process_file`
returns no transactions and one `(filepath, "Parse error: ...")` error, and
`process_files` over any surrounding batch completes with that file
contributing the empty list while every other file's contribution and error
are exactly what processing it alone produces. -/
theorem processFiles_parse_error (dedupe sortDesc : Bool)
    (parsers : List ModelParser) (pre post : List FileInput) (f : FileInput)
    (c e : Str) (p : ModelParser)
    (hc : f.content = .ok c)
    (hp : parsers.find? (fun q => q.canParse c) = some p)
    (he : p.parse c = .error e) :
    BankNormalizer.processFile parsers f =
      ([], some (f.path, str "Parse error: " ++ e)) ∧
    BankNormalizer.processFiles dedupe sortDesc parsers (pre ++ f :: post) =
      (processPipeline dedupe sortDesc
        ((pre.map fun g => (BankNormalizer.processFile parsers g).1) ++
          [] :: (post.map fun g => (BankNormalizer.processFile parsers g).1)),
       (pre.filterMap fun g => (BankNormalizer.processFile parsers g).2) ++
         (f.path, str "Parse error: " ++ e) ::
         (post.filterMap fun g => (BankNormalizer.processFile parsers g).2)) := by
  have h1 : BankNormalizer.processFile parsers f =
      ([], some (f.path, str "Parse error: " ++ e)) := by
    simp only [BankNormalizer.processFile, hc, hp, he]
  refine ⟨h1, ?_⟩
  simp only [BankNormalizer.processFiles, List.map_append, List.map_cons,
    List.filterMap_append, List.filterMap_cons, List.map_map,
    List.filterMap_map, h1, Function.comp_def]

/-- Witness for C6: one always-matching parser whose `parse` raises; the
single-file batch completes with no transactions and the attributed
error. -/
theorem processFiles_parse_error_witness :
    BankNormalizer.processFile
        [⟨fun _ => true, fun _ => .error (str "boom")⟩]
        ⟨str "f.csv", .ok (str "data")⟩ =
      ([], some (str "f.csv", str "Parse error: " ++ str "boom")) ∧
    BankNormalizer.processFiles true true
        [⟨fun _ => true, fun _ => .error (str "boom")⟩]
        [⟨str "f.csv", .ok (str "data")⟩] =
      (processPipeline true true [[]],
       [(str "f.csv", str "Parse error: " ++ str "boom")]) :=
  processFiles_parse_error true true
    [⟨fun _ => true, fun _ => .error (str "boom")⟩] [] []
    ⟨str "f.csv", .ok (str "data")⟩ (str "data") (str "boom")
    ⟨fun _ => true, fun _ => .error (str "boom")⟩ rfl rfl rfl

/-! ## Row-level lemmas for the bank parsers -/

theorem decNeg_coeff (d : Dec) : (decNeg d).coeff = d.coeff := by
  unfold decNeg
  split <;> rfl

theorem twoColAmount_none {debit credit : Option Dec}
    (hd : optTruthy debit = false) (hc : optTruthy credit = false) :
    twoColAmount debit credit = none := by
  simp [twoColAmount, hd, hc]

theorem twoColAmount_some {debit credit : Option Dec} {a : Dec}
    (h : twoColAmount debit credit = some a) :
    a.coeff ≠ 0 ∧
    ((optTruthy debit = true ∧ a = decNeg (debit.getD ⟨false, 0, 0⟩)) ∨
     (optTruthy debit = false ∧ optTruthy credit = true ∧
       a = credit.getD ⟨false, 0, 0⟩)) := by
  unfold twoColAmount at h
  by_cases hd : optTruthy debit = true
  · rw [if_pos hd, Option.some.injEq] at h
    subst h
    refine ⟨?_, Or.inl ⟨hd, rfl⟩⟩
    rw [decNeg_coeff]
    cases debit with
    | none => simp [optTruthy] at hd
    | some d => simpa [optTruthy, decTruthy] using hd
  · rw [if_neg hd] at h
    by_cases hc : optTruthy credit = true
    · rw [if_pos hc, Option.some.injEq] at h
      subst h
      refine ⟨?_, Or.inr ⟨by simpa using hd, hc, rfl⟩⟩
      cases credit with
      | none => simp [optTruthy] at hc
      | some d => simpa [optTruthy, decTruthy] using hc
    · rw [if_neg hc] at h
      exact absurd h (by simp)

set_option maxHeartbeats 1600000 in
theorem dbsSavingsRow_char {acct line : Str} {t : Transaction}
    (h : dbsSavingsRow acct line = some t) :
    ∃ parts dt, csvRow line = some parts ∧ ¬(parts.length < 8) ∧
      parse_date (parts.getD 0 []) = some dt ∧
      twoColAmount
        (if parts.length > 7 then parse_amount (parts.getD 7 []) else none)
        (if parts.length > 8 then parse_amount (parts.getD 8 []) else none) =
        some t.amount ∧
      t = mkTransaction dt (clean_description (parts.getD 2 []))
        t.amount acct := by
  rw [dbsSavingsRow.eq_def] at h
  cases hcsv : csvRow line with
  | none => rw [hcsv] at h; exact Option.noConfusion h
  | some parts =>
      rw [hcsv] at h
      replace h : (if parts.length < 8 then none
          else match parse_date (parts.getD 0 []) with
            | none => none
            | some dt =>
                match twoColAmount
                    (if parts.length > 7 then parse_amount (parts.getD 7 [])
                     else none)
                    (if parts.length > 8 then parse_amount (parts.getD 8 [])
                     else none) with
                | some a => some (mkTransaction dt
                    (clean_description (parts.getD 2 [])) a acct)
                | none => none) = some t := h
      by_cases hlen : parts.length < 8
      · rw [if_pos hlen] at h; exact Option.noConfusion h
      · rw [if_neg hlen] at h
        cases hdt : parse_date (parts.getD 0 []) with
        | none => rw [hdt] at h; exact Option.noConfusion h
        | some dt =>
            rw [hdt] at h
            cases htc : twoColAmount
                (if parts.length > 7 then parse_amount (parts.getD 7 [])
                 else none)
                (if parts.length > 8 then parse_amount (parts.getD 8 [])
                 else none) with
            | none => rw [htc] at h; exact Option.noConfusion h
            | some a =>
                rw [htc] at h
                have ht := Option.some.inj h
                subst ht
                exact ⟨parts, dt, rfl, hlen, hdt, htc, rfl⟩

theorem dbsSavingsRow_none {acct line : Str} {parts : List Str}
    (hcsv : csvRow line = some parts)
    (hd : optTruthy (parse_amount (parts.getD 7 [])) = false)
    (hc : optTruthy (parse_amount (parts.getD 8 [])) = false) :
    dbsSavingsRow acct line = none := by
  have hdg : optTruthy (if parts.length > 7 then
      parse_amount (parts.getD 7 []) else none) = false := by
    split
    · exact hd
    · rfl
  have hcg : optTruthy (if parts.length > 8 then
      parse_amount (parts.getD 8 []) else none) = false := by
    split
    · exact hc
    · rfl
  cases hrow : dbsSavingsRow acct line with
  | none => rfl
  | some t =>
      obtain ⟨parts', dt, hcsv', hlen, hdt, htc, ht⟩ :=
        dbsSavingsRow_char hrow
      rw [hcsv, Option.some.injEq] at hcsv'
      subst hcsv'
      rw [twoColAmount_none hdg hcg] at htc
      exact Option.noConfusion htc

set_option maxHeartbeats 1600000 in
theorem dbsCreditRow_char {acct line : Str} {t : Transaction}
    (h : dbsCreditRow acct line = some t) :
    ∃ parts dt, csvRow line = some parts ∧ ¬(parts.length < 7) ∧
      parse_date (parts.getD 0 []) = some dt ∧
      twoColAmount
        (if parts.length > 6 then parse_amount (parts.getD 6 []) else none)
        (if parts.length > 7 then parse_amount (parts.getD 7 []) else none) =
        some t.amount ∧
      t = mkTransaction dt (clean_description (parts.getD 2 []))
        t.amount acct := by
  rw [dbsCreditRow.eq_def] at h
  cases hcsv : csvRow line with
  | none => rw [hcsv] at h; exact Option.noConfusion h
  | some parts =>
      rw [hcsv] at h
      replace h : (if parts.length < 7 then none
          else if parts.length > 5 &&
              pyLower (pyStrip (parts.getD 5 [])) = str "pending" then none
          else match parse_date (parts.getD 0 []) with
            | none => none
            | some dt =>
                match twoColAmount
                    (if parts.length > 6 then parse_amount (parts.getD 6 [])
                     else none)
                    (if parts.length > 7 then parse_amount (parts.getD 7 [])
                     else none) with
                | some a => some (mkTransaction dt
                    (clean_description (parts.getD 2 [])) a acct)
                | none => none) = some t := h
      by_cases hlen : parts.length < 7
      · rw [if_pos hlen] at h; exact Option.noConfusion h
      · rw [if_neg hlen] at h
        by_cases hpend : (parts.length > 5 &&
            pyLower (pyStrip (parts.getD 5 [])) = str "pending") = true
        · rw [if_pos hpend] at h; exact Option.noConfusion h
        · rw [if_neg hpend] at h
          cases hdt : parse_date (parts.getD 0 []) with
          | none => rw [hdt] at h; exact Option.noConfusion h
          | some dt =>
              rw [hdt] at h
              cases htc : twoColAmount
                  (if parts.length > 6 then parse_amount (parts.getD 6 [])
                   else none)
                  (if parts.length > 7 then parse_amount (parts.getD 7 [])
                   else none) with
              | none => rw [htc] at h; exact Option.noConfusion h
              | some a =>
                  rw [htc] at h
                  have ht := Option.some.inj h
                  subst ht
                  exact ⟨parts, dt, rfl, hlen, hdt, htc, rfl⟩

theorem dbsCreditRow_none {acct line : Str} {parts : List Str}
    (hcsv : csvRow line = some parts)
    (hd : optTruthy (parse_amount (parts.getD 6 [])) = false)
    (hc : optTruthy (parse_amount (parts.getD 7 [])) = false) :
    dbsCreditRow acct line = none := by
  have hdg : optTruthy (if parts.length > 6 then
      parse_amount (parts.getD 6 []) else none) = false := by
    split
    · exact hd
    · rfl
  have hcg : optTruthy (if parts.length > 7 then
      parse_amount (parts.getD 7 []) else none) = false := by
    split
    · exact hc
    · rfl
  cases hrow : dbsCreditRow acct line with
  | none => rfl
  | some t =>
      obtain ⟨parts', dt, hcsv', hlen, hdt, htc, ht⟩ := dbsCreditRow_char hrow
      rw [hcsv, Option.some.injEq] at hcsv'
      subst hcsv'
      rw [twoColAmount_none hdg hcg] at htc
      exact Option.noConfusion htc

set_option maxHeartbeats 1600000 in
theorem ocbcCreditRow_char {acct line : Str} {t : Transaction}
    (h : ocbcCreditRow acct line = some t) :
    ∃ dt, ¬((splitOnChar ',' line).length < 3) ∧
      parse_date ((splitOnChar ',' line).getD 0 []) = some dt ∧
      twoColAmount
        (if (splitOnChar ',' line).length > 2 then
          parse_amount ((splitOnChar ',' line).getD 2 []) else none)
        (if (splitOnChar ',' line).length > 3 then
          parse_amount ((splitOnChar ',' line).getD 3 []) else none) =
        some t.amount ∧
      t = mkTransaction dt
        (clean_description ((splitOnChar ',' line).getD 1 []))
        t.amount acct := by
  rw [ocbcCreditRow.eq_def] at h
  replace h : (if (splitOnChar ',' line).length < 3 then none
      else match parse_date ((splitOnChar ',' line).getD 0 []) with
        | none => none
        | some dt =>
            match twoColAmount
                (if (splitOnChar ',' line).length > 2 then
                  parse_amount ((splitOnChar ',' line).getD 2 []) else none)
                (if (splitOnChar ',' line).length > 3 then
                  parse_amount ((splitOnChar ',' line).getD 3 []) else none)
              with
            | some a => some (mkTransaction dt
                (clean_description ((splitOnChar ',' line).getD 1 [])) a acct)
            | none => none) = some t := h
  by_cases hlen : (splitOnChar ',' line).length < 3
  · rw [if_pos hlen] at h; exact Option.noConfusion h
  · rw [if_neg hlen] at h
    cases hdt : parse_date ((splitOnChar ',' line).getD 0 []) with
    | none => rw [hdt] at h; exact Option.noConfusion h
    | some dt =>
        rw [hdt] at h
        cases htc : twoColAmount
            (if (splitOnChar ',' line).length > 2 then
              parse_amount ((splitOnChar ',' line).getD 2 []) else none)
            (if (splitOnChar ',' line).length > 3 then
              parse_amount ((splitOnChar ',' line).getD 3 []) else none) with
        | none => rw [htc] at h; exact Option.noConfusion h
        | some a =>
            rw [htc] at h
            have ht := Option.some.inj h
            subst ht
            exact ⟨dt, hlen, rfl, rfl, rfl⟩

theorem ocbcCreditRow_none {acct line : Str}
    (hd : optTruthy (parse_amount ((splitOnChar ',' line).getD 2 [])) = false)
    (hc : optTruthy (parse_amount ((splitOnChar ',' line).getD 3 [])) = false) :
    ocbcCreditRow acct line = none := by
  have hdg : optTruthy (if (splitOnChar ',' line).length > 2 then
      parse_amount ((splitOnChar ',' line).getD 2 []) else none) = false := by
    split
    · exact hd
    · rfl
  have hcg : optTruthy (if (splitOnChar ',' line).length > 3 then
      parse_amount ((splitOnChar ',' line).getD 3 []) else none) = false := by
    split
    · exact hc
    · rfl
  cases hrow : ocbcCreditRow acct line with
  | none => rfl
  | some t =>
      obtain ⟨dt, hlen, hdt, htc, ht⟩ := ocbcCreditRow_char hrow
      rw [twoColAmount_none hdg hcg] at htc
      exact Option.noConfusion htc

set_option maxHeartbeats 1600000 in
theorem ocbc360Row_char {acct : Str} {row : List Str} {t : Transaction}
    (h : ocbc360Row acct row = some t) :
    ∃ dt, ¬(row.length < 5) ∧ parse_date (row.getD 0 []) = some dt ∧
      twoColAmount (parse_amount (row.getD 3 []))
        (parse_amount (row.getD 4 [])) = some t.amount ∧
      t = mkTransaction dt (clean_description (row.getD 2 []))
        t.amount acct := by
  rw [ocbc360Row.eq_def] at h
  replace h : (if row.length < 5 then none
      else match parse_date (row.getD 0 []) with
        | none => none
        | some dt =>
            match twoColAmount (parse_amount (row.getD 3 []))
                (parse_amount (row.getD 4 [])) with
            | some a => some (mkTransaction dt
                (clean_description (row.getD 2 [])) a acct)
            | none => none) = some t := h
  by_cases hlen : row.length < 5
  · rw [if_pos hlen] at h; exact Option.noConfusion h
  · rw [if_neg hlen] at h
    cases hdt : parse_date (row.getD 0 []) with
    | none => rw [hdt] at h; exact Option.noConfusion h
    | some dt =>
        rw [hdt] at h
        cases htc : twoColAmount (parse_amount (row.getD 3 []))
            (parse_amount (row.getD 4 [])) with
        | none => rw [htc] at h; exact Option.noConfusion h
        | some a =>
            rw [htc] at h
            have ht := Option.some.inj h
            subst ht
            exact ⟨dt, hlen, rfl, rfl, rfl⟩

theorem ocbc360Row_none {acct : Str} {row : List Str}
    (hd : optTruthy (parse_amount (row.getD 3 [])) = false)
    (hc : optTruthy (parse_amount (row.getD 4 [])) = false) :
    ocbc360Row acct row = none := by
  cases hrow : ocbc360Row acct row with
  | none => rfl
  | some t =>
      obtain ⟨dt, hlen, hdt, htc, ht⟩ := ocbc360Row_char hrow
      rw [twoColAmount_none hd hc] at htc
      exact Option.noConfusion htc

set_option maxHeartbeats 1600000 in
theorem uobRow_char {acct : Str} {row : List Str} {t : Transaction}
    (h : uobRow acct row = some t) :
    ∃ a, parse_amount
        (if pyStrip (row.getD (row.length - 1) []) = [] then
          (if row.length ≥ 2 then pyStrip (row.getD (row.length - 2) [])
           else [])
         else pyStrip (row.getD (row.length - 1) [])) = some a ∧
      t.amount = decNeg a := by
  rw [uobRow.eq_def] at h
  by_cases h7 : row.length < 7
  · rw [if_pos h7] at h; exact Option.noConfusion h
  · rw [if_neg h7] at h
    by_cases hpb : (row.any fun cell =>
        hasSubstr (str "Previous Balance") cell) = true
    · rw [if_pos hpb] at h; exact Option.noConfusion h
    · rw [if_neg hpb] at h
      by_cases hpend : pyUpper (pyStrip (row.getD 1 [])) = str "PENDING"
      · rw [if_pos hpend] at h; exact Option.noConfusion h
      · rw [if_neg hpend] at h
        cases hdt : parse_date (pyStrip (row.getD 1 [])) with
        | none => rw [hdt] at h; exact Option.noConfusion h
        | some dt =>
            rw [hdt] at h
            cases hpa : parse_amount
                (if pyStrip (row.getD (row.length - 1) []) = [] then
                  (if row.length ≥ 2 then
                    pyStrip (row.getD (row.length - 2) []) else [])
                 else pyStrip (row.getD (row.length - 1) [])) with
            | none => rw [hpa] at h; exact Option.noConfusion h
            | some a =>
                rw [hpa] at h
                have ht := Option.some.inj h
                subst ht
                exact ⟨a, rfl, rfl⟩

set_option maxHeartbeats 1600000 in
theorem hsbcRow_char {row : List Str} {t : Transaction}
    (h : hsbcRow row = some t) :
    ∃ a, parse_amount (pyStrip (row.getD (row.length - 1) [])) = some a ∧
      t.amount = a := by
  rw [hsbcRow.eq_def] at h
  replace h : (if row.length < 3 then none
      else match parse_date (row.getD 0 []) with
        | none => none
        | some dt =>
            match parse_amount (pyStrip (row.getD (row.length - 1) [])) with
            | none => none
            | some a => some (mkTransaction dt
                (clean_description (row.getD 1 [])) a
                (str "HSBC Revolution"))) = some t := h
  by_cases h3 : row.length < 3
  · rw [if_pos h3] at h; exact Option.noConfusion h
  · rw [if_neg h3] at h
    cases hdt : parse_date (row.getD 0 []) with
    | none => rw [hdt] at h; exact Option.noConfusion h
    | some dt =>
        rw [hdt] at h
        cases hpa : parse_amount (pyStrip (row.getD (row.length - 1) [])) with
        | none => rw [hpa] at h; exact Option.noConfusion h
        | some a =>
            rw [hpa] at h
            have ht := Option.some.inj h
            subst ht
            exact ⟨a, rfl, rfl⟩

set_option maxHeartbeats 1600000 in
theorem citiRow_char {resolve : Str → Str} {row : List Str} {t : Transaction}
    (h : citiRow resolve row = some t) :
    ∃ a, parse_amount (row.getD 2 []) = some a ∧ t.amount = a := by
  rw [citiRow.eq_def] at h
  replace h : (if row.length < 5 then none
      else match parse_date (row.getD 0 []) with
        | none => none
        | some dt =>
            match parse_amount (row.getD 2 []) with
            | none => none
            | some a => some (mkTransaction dt
                (clean_description (row.getD 1 [])) a
                (resolve ((searchCard (row.getD 4 [])).getD
                  (str "Citi Card"))))) = some t := h
  by_cases h5 : row.length < 5
  · rw [if_pos h5] at h; exact Option.noConfusion h
  · rw [if_neg h5] at h
    cases hdt : parse_date (row.getD 0 []) with
    | none => rw [hdt] at h; exact Option.noConfusion h
    | some dt =>
        rw [hdt] at h
        cases hpa : parse_amount (row.getD 2 []) with
        | none => rw [hpa] at h; exact Option.noConfusion h
        | some a =>
            rw [hpa] at h
            have ht := Option.some.inj h
            subst ht
            exact ⟨a, rfl, rfl⟩

/-! ## C9: the Transaction description invariant -/

/-- C9: every Transaction has a non-empty description from construction: a
blank (empty or whitespace-only) description is replaced by the placeholder
`"(No description)"` in `__post_init__`, and a non-blank description is kept
unchanged. -/
theorem mkTransaction_description_spec (dt : Date) (desc : Str) (a : Dec)
    (acct : Str) :
    (mkTransaction dt desc a acct).description ≠ [] ∧
    (pyStrip desc = [] →
      (mkTransaction dt desc a acct).description = str "(No description)") ∧
    (pyStrip desc ≠ [] →
      (mkTransaction dt desc a acct).description = desc) := by
  unfold mkTransaction
  by_cases h : pyStrip desc = []
  · refine ⟨?_, fun _ => by simp [h], fun h' => absurd h h'⟩
    simp only [h, if_true]
    simp [str]
  · refine ⟨?_, fun h' => absurd h' h, fun _ => by simp [h]⟩
    simp only [h, if_false]
    intro hd
    exact h (by rw [hd]; rfl)

/-- Witness for C9 at concrete inputs: a whitespace-only description is
replaced, a regular one is kept. -/
theorem mkTransaction_description_spec_witness :
    (mkTransaction ⟨2026, 1, 30⟩ (str "  ") ⟨false, 100, 0⟩
        (str "A")).description = str "(No description)" ∧
    (mkTransaction ⟨2026, 1, 30⟩ (str "LUNCH") ⟨false, 100, 0⟩
        (str "A")).description = str "LUNCH" :=
  ⟨(mkTransaction_description_spec ⟨2026, 1, 30⟩ (str "  ") ⟨false, 100, 0⟩
      (str "A")).2.1 (by decide),
   (mkTransaction_description_spec ⟨2026, 1, 30⟩ (str "LUNCH") ⟨false, 100, 0⟩
      (str "A")).2.2 (by decide)⟩

/-! ## C7: the parser registry -/

/-- C7: registering a variant twice keeps a single entry (idempotent append
preserving order); selection scans in registration order and returns the
first variant whose `can_parse` accepts, and returns none when no variant
accepts. -/
theorem registry_spec :
    (∀ (V : Type) [DecidableEq V] (v : V) (l : List V),
      ParserRegistry.register v (ParserRegistry.register v l) =
        ParserRegistry.register v l) ∧
    (∀ (V : Type) [DecidableEq V] (v : V) (l : List V), v ∉ l →
      ParserRegistry.register v l = l ++ [v] ∧
      (ParserRegistry.register v l).count v = 1) ∧
    (∀ (V : Type) (canParse : V → Str → Bool) (c : Str) (pre post : List V)
        (v : V), (∀ u ∈ pre, canParse u c = false) → canParse v c = true →
      ParserRegistry.getParser canParse c (pre ++ v :: post) = some v) ∧
    (∀ (V : Type) (canParse : V → Str → Bool) (c : Str) (l : List V),
      (∀ u ∈ l, canParse u c = false) →
      ParserRegistry.getParser canParse c l = none) := by
  refine ⟨?_, ?_, ?_, ?_⟩
  · intro V _ v l
    unfold ParserRegistry.register
    by_cases hv : v ∈ l
    · simp [hv]
    · simp [hv]
  · intro V _ v l hv
    unfold ParserRegistry.register
    rw [if_neg hv]
    refine ⟨rfl, ?_⟩
    rw [List.count_append, List.count_eq_zero.mpr hv]
    simp
  · intro V canParse c pre post v hpre hv
    unfold ParserRegistry.getParser
    induction pre with
    | nil =>
        rw [List.nil_append]
        exact List.find?_cons_of_pos (p := fun p => canParse p c) post hv
    | cons u us ih =>
        rw [List.cons_append,
          List.find?_cons_of_neg (p := fun p => canParse p c) _ (by
            simpa using hpre u (List.mem_cons_self u us))]
        exact ih (fun w hw => hpre w (List.mem_cons_of_mem u hw))
  · intro V canParse c l hl
    unfold ParserRegistry.getParser
    rw [List.find?_eq_none]
    intro u hu
    simpa using hl u hu

/-- Witness for C7 on a concrete registry of naturals. -/
theorem registry_spec_witness :
    ParserRegistry.register 7 (ParserRegistry.register 7 [3]) =
        ParserRegistry.register 7 [3] ∧
    ParserRegistry.register 7 [3] = [3, 7] ∧
    (ParserRegistry.register 7 [3]).count 7 = 1 ∧
    ParserRegistry.getParser (fun v _ => decide (v = 7)) (str "x")
        ([3] ++ 7 :: [9]) = some 7 ∧
    ParserRegistry.getParser (fun v _ => decide (v = 7)) (str "x") [3, 9] =
        none := by
  refine ⟨registry_spec.1 Nat 7 [3], ?_, ?_, ?_, ?_⟩
  · exact (registry_spec.2.1 Nat 7 [3] (by decide)).1
  · exact (registry_spec.2.1 Nat 7 [3] (by decide)).2
  · exact registry_spec.2.2.1 Nat (fun v _ => decide (v = 7)) (str "x")
      [3] [9] 7 (by decide) (by decide)
  · exact registry_spec.2.2.2 Nat (fun v _ => decide (v = 7)) (str "x")
      [3, 9] (by decide)

/-! ## C8: account-name resolution -/

/-- C8: resolution returns the name of the first mapping whose `matches`
accepts the identifier (so with two mappings sharing the same last 4
digits the earlier one wins); with no match, a cleaned identifier of at
least 4 characters resolves to `"Unknown (<last 4>)"` (in particular
`"5400126102581483"` gives `"Unknown (1483)"`), and a shorter identifier is
returned unchanged. -/
theorem get_account_name_spec :
    (∀ id ms m, ms.find? (fun m => m.matches id) = some m →
      get_account_name id ms = m.name) ∧
    (∀ id m1 m2, m1.matches id = true →
      get_account_name id [m1, m2] = m1.name) ∧
    (∀ id ms, ms.find? (fun m => m.matches id) = none →
      get_account_name id ms = get_account_name id []) ∧
    (∀ id, 4 ≤ (cleanIdStr id).length →
      get_account_name id [] =
        str "Unknown (" ++ lastN 4 (cleanIdStr id) ++ [')']) ∧
    (∀ id, (cleanIdStr id).length < 4 → get_account_name id [] = id) ∧
    get_account_name (str "5400126102581483") [] = str "Unknown (1483)" := by
  have hfind : ∀ id ms m, ms.find? (fun m => m.matches id) = some m →
      get_account_name id ms = m.name := by
    intro id ms
    induction ms with
    | nil => intro m hm; simp at hm
    | cons u us ih =>
        intro m hm
        by_cases hu : u.matches id
        · rw [List.find?_cons_of_pos (p := fun m : AccountMapping => m.matches id) _ hu,
            Option.some.injEq] at hm
          rw [get_account_name, if_pos hu, hm]
        · rw [List.find?_cons_of_neg (p := fun m : AccountMapping => m.matches id) _
            (by simpa using hu)] at hm
          rw [get_account_name, if_neg hu]
          exact ih m hm
  refine ⟨hfind, ?_, ?_, ?_, ?_, by decide⟩
  · intro id m1 m2 h1
    exact hfind id [m1, m2] m1
      (List.find?_cons_of_pos (p := fun m : AccountMapping => m.matches id) _ h1)
  · intro id ms
    induction ms with
    | nil => intro _; rfl
    | cons u us ih =>
        intro hm
        by_cases hu : u.matches id
        · rw [List.find?_cons_of_pos (p := fun m : AccountMapping => m.matches id) _ hu] at hm
          exact absurd hm (by simp)
        · rw [List.find?_cons_of_neg (p := fun m : AccountMapping => m.matches id) _
            (by simpa using hu)] at hm
          have hstep : get_account_name id (u :: us) =
              if u.matches id then u.name else get_account_name id us := rfl
          rw [hstep, if_neg hu]
          exact ih hm
  · intro id h
    rw [get_account_name, if_pos h]
  · intro id h
    rw [get_account_name, if_neg (by omega)]

/-- Witness for C8: the first of two mappings sharing the last 4 digits
wins, and the fallback branches fire at concrete identifiers. -/
theorem get_account_name_spec_witness :
    get_account_name (str "5522-1234-5678-0003")
        [⟨str "5522123456780003", str "UOB A", str "UOB", str "credit_card"⟩,
         ⟨str "0003", str "UOB B", str "UOB", str "credit_card"⟩] =
      str "UOB A" ∧
    get_account_name (str "123") [] = str "123" ∧
    get_account_name (str "5400126102581483") [] = str "Unknown (1483)" := by
  refine ⟨?_, ?_, get_account_name_spec.2.2.2.2.2⟩
  · exact get_account_name_spec.2.1 (str "5522-1234-5678-0003")
      ⟨str "5522123456780003", str "UOB A", str "UOB", str "credit_card"⟩
      ⟨str "0003", str "UOB B", str "UOB", str "credit_card"⟩ (by decide)
  · exact get_account_name_spec.2.2.2.2.1 (str "123") (by decide)

/-! ## C3: the sign conventions of the parser variants -/

/-- C3: every parser variant emits amounts in the canonical sign
convention.  The shared two-column rule negates a truthy debit value and
keeps a truthy credit value; each debit/credit parser (DBS savings, DBS
credit, OCBC credit, OCBC 360) routes its amount through that rule on the
row's debit and credit cells; the UOB parser negates the raw signed amount
("negative = payment" convention); the HSBC and Citi parsers keep the raw
signed amount unchanged ("negative = expense" convention). -/
theorem parser_sign_conventions :
    (∀ (debit credit : Option Dec) (a : Dec),
        twoColAmount debit credit = some a →
        (optTruthy debit = true ∧ a = decNeg (debit.getD ⟨false, 0, 0⟩)) ∨
        (optTruthy debit = false ∧ optTruthy credit = true ∧
          a = credit.getD ⟨false, 0, 0⟩)) ∧
    (∀ acct line t, dbsSavingsRow acct line = some t →
      ∃ parts, csvRow line = some parts ∧
        twoColAmount
          (if parts.length > 7 then parse_amount (parts.getD 7 []) else none)
          (if parts.length > 8 then parse_amount (parts.getD 8 []) else none)
          = some t.amount) ∧
    (∀ acct line t, dbsCreditRow acct line = some t →
      ∃ parts, csvRow line = some parts ∧
        twoColAmount
          (if parts.length > 6 then parse_amount (parts.getD 6 []) else none)
          (if parts.length > 7 then parse_amount (parts.getD 7 []) else none)
          = some t.amount) ∧
    (∀ acct line t, ocbcCreditRow acct line = some t →
        twoColAmount
          (if (splitOnChar ',' line).length > 2 then
            parse_amount ((splitOnChar ',' line).getD 2 []) else none)
          (if (splitOnChar ',' line).length > 3 then
            parse_amount ((splitOnChar ',' line).getD 3 []) else none)
          = some t.amount) ∧
    (∀ acct row t, ocbc360Row acct row = some t →
        twoColAmount (parse_amount (row.getD 3 []))
          (parse_amount (row.getD 4 [])) = some t.amount) ∧
    (∀ acct row t, uobRow acct row = some t →
      ∃ a, parse_amount
          (if pyStrip (row.getD (row.length - 1) []) = [] then
            (if row.length ≥ 2 then pyStrip (row.getD (row.length - 2) [])
             else [])
           else pyStrip (row.getD (row.length - 1) [])) = some a ∧
        t.amount = decNeg a) ∧
    (∀ row t, hsbcRow row = some t →
      ∃ a, parse_amount (pyStrip (row.getD (row.length - 1) [])) = some a ∧
        t.amount = a) ∧
    (∀ resolve row t, citiRow resolve row = some t →
      ∃ a, parse_amount (row.getD 2 []) = some a ∧ t.amount = a) := by
  refine ⟨?_, ?_, ?_, ?_, ?_, ?_, ?_, ?_⟩
  · intro debit credit a h
    exact (twoColAmount_some h).2
  · intro acct line t h
    obtain ⟨parts, dt, hcsv, _, _, htc, _⟩ := dbsSavingsRow_char h
    exact ⟨parts, hcsv, htc⟩
  · intro acct line t h
    obtain ⟨parts, dt, hcsv, _, _, htc, _⟩ := dbsCreditRow_char h
    exact ⟨parts, hcsv, htc⟩
  · intro acct line t h
    obtain ⟨dt, _, _, htc, _⟩ := ocbcCreditRow_char h
    exact htc
  · intro acct row t h
    obtain ⟨dt, _, _, htc, _⟩ := ocbc360Row_char h
    exact htc
  · intro acct row t h
    exact uobRow_char h
  · intro row t h
    exact hsbcRow_char h
  · intro resolve row t h
    exact citiRow_char h

/-- Witness for C3 at one successfully parsed row per parser variant: a
DBS-savings debit of 12.50 becomes -12.50, a DBS-credit debit of 3.00
becomes -3.00, an OCBC-credit debit of 10.00 becomes -10.00, an OCBC-360
withdrawal of 25.00 becomes -25.00, a UOB raw 15.00 becomes -15.00, and
HSBC/Citi raw -5.00 and -8.00 are kept. -/
theorem parser_sign_conventions_witness :
    ((optTruthy (some (⟨false, 1250, -2⟩ : Dec)) = true ∧
        (⟨true, 1250, -2⟩ : Dec) =
          decNeg ((some (⟨false, 1250, -2⟩ : Dec)).getD ⟨false, 0, 0⟩)) ∨
      (optTruthy (some (⟨false, 1250, -2⟩ : Dec)) = false ∧
        optTruthy (none : Option Dec) = true ∧
        (⟨true, 1250, -2⟩ : Dec) =
          (none : Option Dec).getD ⟨false, 0, 0⟩)) ∧
    (∃ parts, csvRow (str "30 Jan 2026,POS,LUNCH,,,,,12.50,") = some parts ∧
      twoColAmount
        (if parts.length > 7 then parse_amount (parts.getD 7 []) else none)
        (if parts.length > 8 then parse_amount (parts.getD 8 []) else none)
        = some ⟨true, 1250, -2⟩) ∧
    (∃ parts, csvRow (str "30 Jan 2026,31 Jan 2026,COFFEE,,,,3.00,") =
        some parts ∧
      twoColAmount
        (if parts.length > 6 then parse_amount (parts.getD 6 []) else none)
        (if parts.length > 7 then parse_amount (parts.getD 7 []) else none)
        = some ⟨true, 300, -2⟩) ∧
    twoColAmount
      (if (splitOnChar ',' (str "30/01/2026,MEAL,10.00,")).length > 2 then
        parse_amount ((splitOnChar ',' (str "30/01/2026,MEAL,10.00,")).getD
          2 []) else none)
      (if (splitOnChar ',' (str "30/01/2026,MEAL,10.00,")).length > 3 then
        parse_amount ((splitOnChar ',' (str "30/01/2026,MEAL,10.00,")).getD
          3 []) else none)
      = some ⟨true, 1000, -2⟩ ∧
    twoColAmount
      (parse_amount (([str "30/01/2026", str "30/01/2026", str "GROCERY",
        str "25.00", str ""]).getD 3 []))
      (parse_amount (([str "30/01/2026", str "30/01/2026", str "GROCERY",
        str "25.00", str ""]).getD 4 [])) = some ⟨true, 2500, -2⟩ ∧
    (∃ a, parse_amount
        (if pyStrip (([str "30/01/2026", str "30/01/2026", str "TAXI",
            str "", str "", str "", str "15.00"]).getD
            (([str "30/01/2026", str "30/01/2026", str "TAXI", str "",
              str "", str "", str "15.00"]).length - 1) []) = [] then
          (if ([str "30/01/2026", str "30/01/2026", str "TAXI", str "",
              str "", str "", str "15.00"]).length ≥ 2 then
            pyStrip (([str "30/01/2026", str "30/01/2026", str "TAXI",
              str "", str "", str "", str "15.00"]).getD
              (([str "30/01/2026", str "30/01/2026", str "TAXI", str "",
                str "", str "", str "15.00"]).length - 2) [])
           else [])
         else pyStrip (([str "30/01/2026", str "30/01/2026", str "TAXI",
            str "", str "", str "", str "15.00"]).getD
            (([str "30/01/2026", str "30/01/2026", str "TAXI", str "",
              str "", str "", str "15.00"]).length - 1) [])) = some a ∧
      (⟨true, 1500, -2⟩ : Dec) = decNeg a) ∧
    (∃ a, parse_amount (pyStrip (([str "30/01/2026", str "SHOP",
        str "-5.00"]).getD
        (([str "30/01/2026", str "SHOP", str "-5.00"]).length - 1) [])) =
        some a ∧ (⟨true, 500, -2⟩ : Dec) = a) ∧
    (∃ a, parse_amount (([str "30/01/2026", str "CAB", str "-8.00", str "",
        str "'1234567890123456'"]).getD 2 []) = some a ∧
      (⟨true, 800, -2⟩ : Dec) = a) :=
  ⟨parser_sign_conventions.1 (some ⟨false, 1250, -2⟩) none ⟨true, 1250, -2⟩
      (by decide),
   parser_sign_conventions.2.1 (str "DBS Savings")
      (str "30 Jan 2026,POS,LUNCH,,,,,12.50,")
      ⟨⟨2026, 1, 30⟩, str "LUNCH", ⟨true, 1250, -2⟩, str "DBS Savings",
        str "SGD", none, none, none⟩ (by decide),
   parser_sign_conventions.2.2.1 (str "DBS Credit")
      (str "30 Jan 2026,31 Jan 2026,COFFEE,,,,3.00,")
      ⟨⟨2026, 1, 30⟩, str "COFFEE", ⟨true, 300, -2⟩, str "DBS Credit",
        str "SGD", none, none, none⟩ (by decide),
   parser_sign_conventions.2.2.2.1 (str "OCBC Credit")
      (str "30/01/2026,MEAL,10.00,")
      ⟨⟨2026, 1, 30⟩, str "MEAL", ⟨true, 1000, -2⟩, str "OCBC Credit",
        str "SGD", none, none, none⟩ (by decide),
   parser_sign_conventions.2.2.2.2.1 (str "OCBC 360")
      [str "30/01/2026", str "30/01/2026", str "GROCERY", str "25.00",
        str ""]
      ⟨⟨2026, 1, 30⟩, str "GROCERY", ⟨true, 2500, -2⟩, str "OCBC 360",
        str "SGD", none, none, none⟩ (by decide),
   parser_sign_conventions.2.2.2.2.2.1 (str "UOB")
      [str "30/01/2026", str "30/01/2026", str "TAXI", str "", str "",
        str "", str "15.00"]
      ⟨⟨2026, 1, 30⟩, str "TAXI", ⟨true, 1500, -2⟩, str "UOB",
        str "SGD", none, none, none⟩ (by decide),
   parser_sign_conventions.2.2.2.2.2.2.1
      [str "30/01/2026", str "SHOP", str "-5.00"]
      ⟨⟨2026, 1, 30⟩, str "SHOP", ⟨true, 500, -2⟩, str "HSBC Revolution",
        str "SGD", none, none, none⟩ (by decide),
   parser_sign_conventions.2.2.2.2.2.2.2 (fun s => s)
      [str "30/01/2026", str "CAB", str "-8.00", str "",
        str "'1234567890123456'"]
      ⟨⟨2026, 1, 30⟩, str "CAB", ⟨true, 800, -2⟩, str "1234567890123456",
        str "SGD", none, none, none⟩ (by decide)⟩

/-! ## C10: zero-amount rows are dropped and debit takes precedence -/

/-- C10: in the shared two-column rule a row whose debit and credit cells
are both unparseable or zero yields no amount, and a truthy debit takes
precedence over any credit; for each two-column parser variant (DBS
savings, DBS credit, OCBC credit, OCBC 360) such a row is silently
dropped, and every emitted transaction has a nonzero amount. -/
theorem two_column_zero_drop :
    (∀ (debit credit : Option Dec),
      optTruthy debit = false → optTruthy credit = false →
      twoColAmount debit credit = none) ∧
    (∀ (debit credit : Option Dec) (a : Dec), optTruthy debit = true →
      twoColAmount debit credit = some a →
      a = decNeg (debit.getD ⟨false, 0, 0⟩)) ∧
    (∀ acct line parts, csvRow line = some parts →
      optTruthy (parse_amount (parts.getD 7 [])) = false →
      optTruthy (parse_amount (parts.getD 8 [])) = false →
      dbsSavingsRow acct line = none) ∧
    (∀ acct line parts, csvRow line = some parts →
      optTruthy (parse_amount (parts.getD 6 [])) = false →
      optTruthy (parse_amount (parts.getD 7 [])) = false →
      dbsCreditRow acct line = none) ∧
    (∀ acct line,
      optTruthy (parse_amount ((splitOnChar ',' line).getD 2 [])) = false →
      optTruthy (parse_amount ((splitOnChar ',' line).getD 3 [])) = false →
      ocbcCreditRow acct line = none) ∧
    (∀ acct row,
      optTruthy (parse_amount (row.getD 3 [])) = false →
      optTruthy (parse_amount (row.getD 4 [])) = false →
      ocbc360Row acct row = none) ∧
    (∀ acct line t, dbsSavingsRow acct line = some t →
      t.amount.coeff ≠ 0) ∧
    (∀ acct line t, dbsCreditRow acct line = some t →
      t.amount.coeff ≠ 0) ∧
    (∀ acct line t, ocbcCreditRow acct line = some t →
      t.amount.coeff ≠ 0) ∧
    (∀ acct row t, ocbc360Row acct row = some t →
      t.amount.coeff ≠ 0) := by
  refine ⟨?_, ?_, ?_, ?_, ?_, ?_, ?_, ?_, ?_, ?_⟩
  · intro debit credit hd hc
    exact twoColAmount_none hd hc
  · intro debit credit a hd h
    unfold twoColAmount at h
    rw [if_pos hd, Option.some.injEq] at h
    exact h.symm
  · intro acct line parts hcsv hd hc
    exact dbsSavingsRow_none hcsv hd hc
  · intro acct line parts hcsv hd hc
    exact dbsCreditRow_none hcsv hd hc
  · intro acct line hd hc
    exact ocbcCreditRow_none hd hc
  · intro acct row hd hc
    exact ocbc360Row_none hd hc
  · intro acct line t h
    obtain ⟨parts, dt, _, _, _, htc, _⟩ := dbsSavingsRow_char h
    exact (twoColAmount_some htc).1
  · intro acct line t h
    obtain ⟨parts, dt, _, _, _, htc, _⟩ := dbsCreditRow_char h
    exact (twoColAmount_some htc).1
  · intro acct line t h
    obtain ⟨dt, _, _, htc, _⟩ := ocbcCreditRow_char h
    exact (twoColAmount_some htc).1
  · intro acct row t h
    obtain ⟨dt, _, _, htc, _⟩ := ocbc360Row_char h
    exact (twoColAmount_some htc).1

/-- Witness for C10: rows whose debit and credit cells are blank or
`0.00` are dropped by every two-column parser; a row with debit 12.50 and
credit 99.00 takes the negated debit; the transactions emitted for the
nonzero rows all carry nonzero amounts. -/
theorem two_column_zero_drop_witness :
    twoColAmount none (some ⟨false, 0, -2⟩) = none ∧
    (⟨true, 1250, -2⟩ : Dec) =
      decNeg ((some (⟨false, 1250, -2⟩ : Dec)).getD ⟨false, 0, 0⟩) ∧
    dbsSavingsRow (str "DBS Savings")
      (str "30 Jan 2026,POS,LUNCH,,,,,0.00,") = none ∧
    dbsCreditRow (str "DBS Credit")
      (str "30 Jan 2026,31 Jan 2026,COFFEE,,,,0.00,") = none ∧
    ocbcCreditRow (str "OCBC Credit") (str "30/01/2026,MEAL,0.00,") =
      none ∧
    ocbc360Row (str "OCBC 360") [str "30/01/2026", str "30/01/2026",
      str "GROCERY", str "0.00", str "0.00"] = none ∧
    (⟨true, 1250, -2⟩ : Dec).coeff ≠ 0 ∧
    (⟨true, 300, -2⟩ : Dec).coeff ≠ 0 ∧
    (⟨true, 1000, -2⟩ : Dec).coeff ≠ 0 ∧
    (⟨true, 2500, -2⟩ : Dec).coeff ≠ 0 :=
  ⟨two_column_zero_drop.1 none (some ⟨false, 0, -2⟩) (by decide)
      (by decide),
   two_column_zero_drop.2.1 (some ⟨false, 1250, -2⟩) (some ⟨false, 9900, -2⟩)
      ⟨true, 1250, -2⟩ (by decide) (by decide),
   two_column_zero_drop.2.2.1 (str "DBS Savings")
      (str "30 Jan 2026,POS,LUNCH,,,,,0.00,")
      [str "30 Jan 2026", str "POS", str "LUNCH", [], [], [], [],
        str "0.00", []] (by decide) (by decide) (by decide),
   two_column_zero_drop.2.2.2.1 (str "DBS Credit")
      (str "30 Jan 2026,31 Jan 2026,COFFEE,,,,0.00,")
      [str "30 Jan 2026", str "31 Jan 2026", str "COFFEE", [], [], [],
        str "0.00", []] (by decide) (by decide) (by decide),
   two_column_zero_drop.2.2.2.2.1 (str "OCBC Credit")
      (str "30/01/2026,MEAL,0.00,") (by decide) (by decide),
   two_column_zero_drop.2.2.2.2.2.1 (str "OCBC 360")
      [str "30/01/2026", str "30/01/2026", str "GROCERY", str "0.00",
        str "0.00"] (by decide) (by decide),
   two_column_zero_drop.2.2.2.2.2.2.1 (str "DBS Savings")
      (str "30 Jan 2026,POS,LUNCH,,,,,12.50,")
      ⟨⟨2026, 1, 30⟩, str "LUNCH", ⟨true, 1250, -2⟩, str "DBS Savings",
        str "SGD", none, none, none⟩ (by decide),
   two_column_zero_drop.2.2.2.2.2.2.2.1 (str "DBS Credit")
      (str "30 Jan 2026,31 Jan 2026,COFFEE,,,,3.00,")
      ⟨⟨2026, 1, 30⟩, str "COFFEE", ⟨true, 300, -2⟩, str "DBS Credit",
        str "SGD", none, none, none⟩ (by decide),
   two_column_zero_drop.2.2.2.2.2.2.2.2.1 (str "OCBC Credit")
      (str "30/01/2026,MEAL,10.00,")
      ⟨⟨2026, 1, 30⟩, str "MEAL", ⟨true, 1000, -2⟩, str "OCBC Credit",
        str "SGD", none, none, none⟩ (by decide),
   two_column_zero_drop.2.2.2.2.2.2.2.2.2 (str "OCBC 360")
      [str "30/01/2026", str "30/01/2026", str "GROCERY", str "25.00",
        str ""]
      ⟨⟨2026, 1, 30⟩, str "GROCERY", ⟨true, 2500, -2⟩, str "OCBC 360",
        str "SGD", none, none, none⟩ (by decide)⟩


end LunchSync
